import Mathlib

/-!
Verification of the task-scheduling core of the one-click-routine app.

The definitions below are shallow embeddings of the functions in
`src/store.ts` and `src/i18n.ts`.  Timestamps are milliseconds since the
epoch (JS `Date.now()`), modelled as `Nat`.  A JS calendar date obtained via
`toISOString().split('T')[0]` is represented by its day index (whole days
since the epoch) instead of the `YYYY-MM-DD` string; the two representations
are in order-preserving bijection for the timestamps the app produces.
-/

namespace OneClickRoutine

/-- The `Task` interface of `store.ts`.  `initialDaysOffset?` is optional,
hence `Option Nat`.  `createdAt` is a required field in the interface, but
old persisted records may lack it; the code only ever tests it for
truthiness (`task.createdAt || task.lastCompleted`), so the absent field and
the falsy value are both modelled by `0`. -/
structure Task where
  id : String
  name : String
  intervalDays : Nat
  lastCompleted : Nat
  createdAt : Nat
  initialDaysOffset : Option Nat
deriving Repr, DecidableEq

def msPerDay : Nat := 1000 * 60 * 60 * 24

/-- `timestampToDateString` of `store.ts`: a timestamp is mapped to its UTC
calendar date, represented here by its day index. -/
def timestampToDate (ts : Nat) : Nat := ts / msPerDay

/-- `daysBetween` of `store.ts`.  Its arguments are date-only values (UTC
midnights), so `Math.floor((d2 - d1) / msPerDay)` is exactly the difference
of the day indices, also when it is negative. -/
def daysBetween (d1 d2 : Nat) : Int := (d2 : Int) - (d1 : Int)

/-- `getDaysRemaining` of `store.ts` with the current time made explicit
(the source reads it through `getDateString()`). -/
def getDaysRemaining (task : Task) (now : Nat) : Int :=
  let today := timestampToDate now
  let lastCompletedDate := timestampToDate task.lastCompleted
  -- `task.createdAt || task.lastCompleted`: `0` is the only falsy `Nat`
  let createdAt := if task.createdAt ≠ 0 then task.createdAt else task.lastCompleted
  let createdAtDate := timestampToDate createdAt
  let isFirstCycle := task.lastCompleted = createdAt
  if isFirstCycle then
    -- `task.initialDaysOffset ?? task.intervalDays`
    let initialOffset := task.initialDaysOffset.getD task.intervalDays
    let daysElapsed := daysBetween createdAtDate today
    (initialOffset : Int) - daysElapsed
  else
    let daysElapsed := daysBetween lastCompletedDate today
    (task.intervalDays : Int) - daysElapsed

/-- `getDueDate` of `store.ts`.  `today` is `new Date()` with the time
cleared to local midnight; dates are modelled at day granularity, so the
local day index is the parameter `todayLocal`.  `setDate(getDate() + n)`
adds `n` calendar days. -/
def getDueDate (task : Task) (now : Nat) (todayLocal : Int) : Int :=
  let daysRemaining := getDaysRemaining task now
  if daysRemaining ≤ 0 then
    todayLocal
  else
    todayLocal + daysRemaining

/-- `getDaysOverdue` of `store.ts`. -/
def getDaysOverdue (task : Task) (now : Nat) : Int :=
  let today := timestampToDate now
  let lastCompletedDate := timestampToDate task.lastCompleted
  daysBetween lastCompletedDate today - (task.intervalDays : Int)

/-- `completeTask` of `store.ts`, acting on an explicit store. -/
def completeTask (tasks : List Task) (id : String) (now : Nat) : List Task :=
  tasks.map fun t => if t.id = id then { t with lastCompleted := now } else t

/-- `loadTasks` of `store.ts`.  The input is the parse of the persisted
JSON: `none` models both an absent storage key and a `JSON.parse` failure
(the `catch` turns the latter into the empty list); `some ts` is the parsed
record list, which the current code returns as is, without any migration. -/
def loadTasks (stored : Option (List Task)) : List Task :=
  match stored with
  | some ts => ts
  | none => []

/-- The merge step of `importTasksFromLink` (`store.ts`, after a payload has
been decoded successfully): ids already in the store win, records with new
ids are appended, and the Boolean reports whether anything was added. -/
def mergeImportedTasks (stored newTasks : List Task) : Bool × List Task :=
  let existingIds := stored.map fun t => t.id
  let tasksToAdd := newTasks.filter fun t => !(existingIds.contains t.id)
  if 0 < tasksToAdd.length then
    (true, stored ++ tasksToAdd)
  else
    (false, stored)

/-- The `s` of the inline plural `${n !== 1 ? 's' : ''}` in `i18n.ts`. -/
def plural (n : Nat) : String := if n ≠ 1 then "s" else ""

/-- `formatOverdueTime` of the English translation table in `i18n.ts`.  The
app only calls it with non-negative day counts, hence `Nat`. -/
def formatOverdueTime (daysOverdue : Nat) : String :=
  if daysOverdue = 0 then "today"
  else if daysOverdue < 7 then
    toString daysOverdue ++ " day" ++ plural daysOverdue ++ " ago"
  else if daysOverdue < 30 then
    let weeks := daysOverdue / 7
    let days := daysOverdue % 7
    if days = 0 then
      toString weeks ++ " week" ++ plural weeks ++ " ago"
    else
      toString weeks ++ "w " ++ toString days ++ "d ago"
  else
    let months := daysOverdue / 30
    let remainingDays := daysOverdue % 30
    if remainingDays = 0 then
      toString months ++ " month" ++ plural months ++ " ago"
    else
      let weeks := remainingDays / 7
      if weeks = 0 then
        toString months ++ "mo " ++ toString remainingDays ++ "d ago"
      else
        toString months ++ "mo " ++ toString weeks ++ "w ago"

/-- A record as an old client persisted it: no `createdAt` (falsy `0`), no
`initialDaysOffset`. -/
def legacyRecord : Task := ⟨"old1", "legacy", 3, 86400000, 0, none⟩

/-!
### The magic-link codec (`store.ts` lines 254 to 359)

`generateMagicLink` serialises the store with `JSON.stringify`, encodes the
text as UTF-8 (`TextEncoder`) and applies `btoa` followed by the base64url
replacements; `importTasksFromLink` reverses the three steps and merges.
JS strings are modelled as lists of Unicode code points (`List Nat`), bytes
as naturals below 256.
-/

/-- The code points of a Lean string; Lean strings are sequences of Unicode
scalar values, the value space of well-formed JS strings. -/
def codesOf (s : String) : List Nat := s.data.map fun c => c.toNat

/-- Standard base64 alphabet character of a six-bit value. -/
def b64CharOf (n : Nat) : Nat :=
  if n < 26 then 65 + n
  else if n < 52 then 97 + (n - 26)
  else if n < 62 then 48 + (n - 52)
  else if n = 62 then 43
  else 47

/-- Six-bit value of a standard base64 alphabet character, `none` for any
other character (`atob` raises `InvalidCharacterError` there). -/
def b64ValOf (c : Nat) : Option Nat :=
  if 65 ≤ c ∧ c ≤ 90 then some (c - 65)
  else if 97 ≤ c ∧ c ≤ 122 then some (26 + (c - 97))
  else if 48 ≤ c ∧ c ≤ 57 then some (52 + (c - 48))
  else if c = 43 then some 62
  else if c = 47 then some 63
  else none

/-- Bytes to six-bit groups, as `btoa` does before padding. -/
def b64Sextets : List Nat → List Nat
  | x :: y :: z :: rest =>
      (x / 4) :: ((x % 4) * 16 + y / 16) :: ((y % 16) * 4 + z / 64) :: (z % 64) ::
        b64Sextets rest
  | [x, y] => [x / 4, (x % 4) * 16 + y / 16, (y % 16) * 4]
  | [x] => [x / 4, (x % 4) * 16]
  | [] => []

/-- `btoa`: standard base64 with `=` padding to a multiple of four. -/
def btoa (bytes : List Nat) : List Nat :=
  (b64Sextets bytes).map b64CharOf ++ List.replicate ((3 - bytes.length % 3) % 3) 61

/-- The replace chain of `encodeUnicodeToBase64`: `+` to `-`, `/` to `_`,
and every `=` removed. -/
def toUrlSafe (chars : List Nat) : List Nat :=
  (chars.map fun c => if c = 43 then 45 else if c = 47 then 95 else c).filter
    fun c => c != 61

/-- The restore step of `decodeUnicodeFromBase64`: `-` to `+`, `_` to `/`,
then `=` appended while the length is not a multiple of four. -/
def fromUrlSafe (chars : List Nat) : List Nat :=
  let std := chars.map fun c => if c = 45 then 43 else if c = 95 then 47 else c
  std ++ List.replicate ((4 - std.length % 4) % 4) 61

/-- Strip at most two trailing `=`, as forgiving-base64 does when the input
length is a multiple of four. -/
def stripB64Pad (chars : List Nat) : List Nat :=
  match chars.reverse with
  | c1 :: c2 :: r =>
      if c1 = 61 then (if c2 = 61 then r.reverse else (c2 :: r).reverse) else chars
  | [c1] => if c1 = 61 then [] else chars
  | [] => chars

/-- Reassemble bytes from six-bit groups (the forgiving-base64 bit buffer:
a final group of two or three sextets yields one or two bytes; a final
single sextet cannot occur, the length check rejects it first). -/
def b64Bytes : List Nat → List Nat
  | a :: b :: c :: d :: rest =>
      (a * 4 + b / 16) :: ((b % 16) * 16 + c / 4) :: ((c % 4) * 64 + d) :: b64Bytes rest
  | [a, b] => [a * 4 + b / 16]
  | [a, b, c] => [a * 4 + b / 16, (b % 16) * 16 + c / 4]
  | _ => []

/-- `atob`, the WHATWG forgiving-base64 decode: remove ASCII whitespace,
strip up to two trailing `=` when the length is a multiple of four, reject
a length of one modulo four and any character outside the alphabet, then
reassemble the bytes. -/
def atob (input : List Nat) : Option (List Nat) :=
  let data := input.filter fun c => !(c == 9 || c == 10 || c == 12 || c == 13 || c == 32)
  let data := if data.length % 4 = 0 then stripB64Pad data else data
  if data.length % 4 = 1 then none
  else
    match data.mapM b64ValOf with
    | none => none
    | some sextets => some (b64Bytes sextets)

/-- UTF-8 encoding of one Unicode scalar value (`TextEncoder`). -/
def utf8EncodeChar (c : Nat) : List Nat :=
  if c < 0x80 then [c]
  else if c < 0x800 then [192 + c / 64, 128 + c % 64]
  else if c < 0x10000 then [224 + c / 4096, 128 + (c / 64) % 64, 128 + c % 64]
  else [240 + c / 262144, 128 + (c / 4096) % 64, 128 + (c / 64) % 64, 128 + c % 64]

def utf8Encode (cps : List Nat) : List Nat := (cps.map utf8EncodeChar).flatten

/-- One step of the WHATWG UTF-8 decoder on a byte seen in the initial
state: an ASCII code point is emitted, or a multi-byte sequence starts
(bytes still needed, accumulated code point, lower and upper boundary for
the next byte), or the byte is invalid and U+FFFD is emitted. -/
def utf8Step0 (b : Nat) : List Nat × Option (Nat × Nat × Nat × Nat) :=
  if b ≤ 0x7F then ([b], none)
  else if 0xC2 ≤ b ∧ b ≤ 0xDF then ([], some (1, b % 32, 0x80, 0xBF))
  else if b = 0xE0 then ([], some (2, b % 16, 0xA0, 0xBF))
  else if 0xE1 ≤ b ∧ b ≤ 0xEC then ([], some (2, b % 16, 0x80, 0xBF))
  else if b = 0xED then ([], some (2, b % 16, 0x80, 0x9F))
  else if 0xEE ≤ b ∧ b ≤ 0xEF then ([], some (2, b % 16, 0x80, 0xBF))
  else if b = 0xF0 then ([], some (3, b % 8, 0x90, 0xBF))
  else if 0xF1 ≤ b ∧ b ≤ 0xF3 then ([], some (3, b % 8, 0x80, 0xBF))
  else if b = 0xF4 then ([], some (3, b % 8, 0x80, 0x8F))
  else ([0xFFFD], none)

/-- The WHATWG UTF-8 decoder with replacement, the default `TextDecoder`:
a byte failing its boundary check emits U+FFFD and is reprocessed in the
initial state; a truncated sequence at the end of the stream emits one
U+FFFD.  It never fails. -/
def utf8DecodeAux : Option (Nat × Nat × Nat × Nat) → List Nat → List Nat
  | none, [] => []
  | some _, [] => [0xFFFD]
  | none, b :: rest =>
      let s := utf8Step0 b
      s.1 ++ utf8DecodeAux s.2 rest
  | some (needed, cp, lower, upper), b :: rest =>
      if lower ≤ b ∧ b ≤ upper then
        let cp2 := cp * 64 + b % 64
        if needed = 1 then cp2 :: utf8DecodeAux none rest
        else utf8DecodeAux (some (needed - 1, cp2, 0x80, 0xBF)) rest
      else
        let s := utf8Step0 b
        0xFFFD :: (s.1 ++ utf8DecodeAux s.2 rest)

def utf8Decode (bytes : List Nat) : List Nat := utf8DecodeAux none bytes

/-- The JSON values `JSON.parse` can produce.  A number is kept as its
exact decimal reading `mant * 10 ^ exp10`, negated when `neg`; object
member lists keep source order. -/
inductive JValue where
  | null : JValue
  | bool (b : Bool) : JValue
  | num (neg : Bool) (mant : Nat) (exp10 : Int) : JValue
  | str (s : List Nat) : JValue
  | arr (elems : List JValue) : JValue
  | obj (members : List (List Nat × JValue)) : JValue

/-- Lowercase hexadecimal digit character, as `JSON.stringify` uses in
`\u00XX` escapes. -/
def hexDigitChar (n : Nat) : Nat := if n < 10 then 48 + n else 87 + n

/-- `JSON.stringify` escaping of one code point inside a string literal. -/
def jsonEscapeChar (c : Nat) : List Nat :=
  if c = 34 then [92, 34]
  else if c = 92 then [92, 92]
  else if c = 8 then [92, 98]
  else if c = 9 then [92, 116]
  else if c = 10 then [92, 110]
  else if c = 12 then [92, 102]
  else if c = 13 then [92, 114]
  else if c < 32 then [92, 117, 48, 48, hexDigitChar (c / 16), hexDigitChar (c % 16)]
  else [c]

/-- A string literal as `JSON.stringify` prints it. -/
def jsonQuote (s : List Nat) : List Nat := 34 :: (s.map jsonEscapeChar).flatten ++ [34]

/-- Decimal digit characters of a natural number, as JS prints an
integer-valued number. -/
def natDigits (n : Nat) : List Nat :=
  if h : n < 10 then [48 + n] else natDigits (n / 10) ++ [48 + n % 10]

/-- One serialised task, exactly as `JSON.stringify` renders the object
literal built in `generateMagicLink`: keys in insertion order, and the
`initialDaysOffset` key omitted when its value is `undefined`. -/
def jsonTaskCodes (t : Task) : List Nat :=
  [123] ++ jsonQuote (codesOf "id") ++ [58] ++ jsonQuote (codesOf t.id) ++ [44] ++
  jsonQuote (codesOf "name") ++ [58] ++ jsonQuote (codesOf t.name) ++ [44] ++
  jsonQuote (codesOf "intervalDays") ++ [58] ++ natDigits t.intervalDays ++ [44] ++
  jsonQuote (codesOf "lastCompleted") ++ [58] ++ natDigits t.lastCompleted ++ [44] ++
  jsonQuote (codesOf "createdAt") ++ [58] ++ natDigits t.createdAt ++
  (match t.initialDaysOffset with
   | some k => [44] ++ jsonQuote (codesOf "initialDaysOffset") ++ [58] ++ natDigits k
   | none => []) ++ [125]

def commaSep : List (List Nat) → List Nat
  | [] => []
  | [x] => x
  | x :: y :: rest => x ++ 44 :: commaSep (y :: rest)

/-- `JSON.stringify` of the shareable-task array. -/
def jsonTasksCodes (ts : List Task) : List Nat :=
  91 :: commaSep (ts.map jsonTaskCodes) ++ [93]

def isJsonWs (c : Nat) : Bool := decide (c = 9 ∨ c = 10 ∨ c = 13 ∨ c = 32)

def skipWs (l : List Nat) : List Nat := l.dropWhile isJsonWs

def isDigitCode (c : Nat) : Bool := decide (48 ≤ c ∧ c ≤ 57)

/-- Consume a run of decimal digits, extending an accumulated value and a
digit count. -/
def consumeDigitsCnt : List Nat → Nat → Nat → Nat × Nat × List Nat
  | c :: rest, acc, k =>
      if isDigitCode c then consumeDigitsCnt rest (acc * 10 + (c - 48)) (k + 1)
      else (acc, k, c :: rest)
  | [], acc, k => (acc, k, [])

def hexVal (c : Nat) : Option Nat :=
  if 48 ≤ c ∧ c ≤ 57 then some (c - 48)
  else if 97 ≤ c ∧ c ≤ 102 then some (c - 97 + 10)
  else if 65 ≤ c ∧ c ≤ 70 then some (c - 65 + 10)
  else none

/-- Prepend a decoded code point to a string-body parse result. -/
def consRes (u : Nat) : Option (List Nat × List Nat) → Option (List Nat × List Nat)
  | some (s, r) => some (u :: s, r)
  | none => none

/-- Parse the body of a JSON string literal up to the closing quote.
Unescaped control characters are a syntax error, as in `JSON.parse`.  A
`\uXXXX` high surrogate immediately followed by a `\uXXXX` low surrogate
combines into one code point, as the two UTF-16 units do inside a JS
string.  The fuel only serves termination; every step consumes at least
one input character, so one unit of fuel per character is enough. -/
def parseJStringAux : Nat → List Nat → Option (List Nat × List Nat)
  | 0, _ => none
  | fuel + 1, l =>
    match l with
    | [] => none
    | c :: rest =>
      if c = 34 then some ([], rest)
      else if c = 92 then
        match rest with
        | [] => none
        | e :: rest1 =>
          if e = 34 then consRes 34 (parseJStringAux fuel rest1)
          else if e = 92 then consRes 92 (parseJStringAux fuel rest1)
          else if e = 47 then consRes 47 (parseJStringAux fuel rest1)
          else if e = 98 then consRes 8 (parseJStringAux fuel rest1)
          else if e = 102 then consRes 12 (parseJStringAux fuel rest1)
          else if e = 110 then consRes 10 (parseJStringAux fuel rest1)
          else if e = 114 then consRes 13 (parseJStringAux fuel rest1)
          else if e = 116 then consRes 9 (parseJStringAux fuel rest1)
          else if e = 117 then
            match rest1 with
            | h1 :: h2 :: h3 :: h4 :: rest2 =>
              match hexVal h1, hexVal h2, hexVal h3, hexVal h4 with
              | some a, some b, some c2, some d =>
                let u := ((a * 16 + b) * 16 + c2) * 16 + d
                if 0xD800 ≤ u ∧ u ≤ 0xDBFF then
                  match rest2 with
                  | 92 :: 117 :: g1 :: g2 :: g3 :: g4 :: rest3 =>
                    match hexVal g1, hexVal g2, hexVal g3, hexVal g4 with
                    | some a2, some b2, some c3, some d2 =>
                      let u2 := ((a2 * 16 + b2) * 16 + c3) * 16 + d2
                      if 0xDC00 ≤ u2 ∧ u2 ≤ 0xDFFF then
                        consRes (0x10000 + (u - 0xD800) * 1024 + (u2 - 0xDC00))
                          (parseJStringAux fuel rest3)
                      else
                        consRes u
                          (parseJStringAux fuel (92 :: 117 :: g1 :: g2 :: g3 :: g4 :: rest3))
                    | _, _, _, _ => consRes u (parseJStringAux fuel rest2)
                  | _ => consRes u (parseJStringAux fuel rest2)
                else consRes u (parseJStringAux fuel rest2)
              | _, _, _, _ => none
            | _ => none
          else none
      else if c < 32 then none
      else consRes c (parseJStringAux fuel rest)

def parseJString (l : List Nat) : Option (List Nat × List Nat) :=
  parseJStringAux (l.length + 1) l

/-- Optional fraction part of a JSON number: the mantissa is extended and
the count of fraction digits recorded.  A dot not followed by a digit is
left in place (the token then ends an offending parse at the caller, as
the grammar violation does for `JSON.parse`). -/
def parseJNumFrac (mant : Nat) (l : List Nat) : Nat × Nat × List Nat :=
  match l with
  | [] => (mant, 0, [])
  | c :: rest =>
    if c = 46 then
      match rest with
      | [] => (mant, 0, c :: rest)
      | c2 :: rest2 =>
        if isDigitCode c2 then consumeDigitsCnt (c2 :: rest2) mant 0
        else (mant, 0, c :: rest)
    else (mant, 0, c :: rest)

/-- Optional exponent part of a JSON number.  An `e`/`E` not followed by a
well-formed exponent is left in place, with the same caller-side effect as
in `parseJNumFrac`. -/
def parseJExp (l : List Nat) : Int × List Nat :=
  match l with
  | [] => (0, [])
  | e :: rest =>
    if e = 101 ∨ e = 69 then
      match rest with
      | [] => (0, e :: rest)
      | c2 :: rest2 =>
        if c2 = 43 then
          match rest2 with
          | [] => (0, e :: rest)
          | c3 :: rest3 =>
            if isDigitCode c3 then
              let d := consumeDigitsCnt (c3 :: rest3) 0 0
              ((d.1 : Int), d.2.2)
            else (0, e :: rest)
        else if c2 = 45 then
          match rest2 with
          | [] => (0, e :: rest)
          | c3 :: rest3 =>
            if isDigitCode c3 then
              let d := consumeDigitsCnt (c3 :: rest3) 0 0
              (-(d.1 : Int), d.2.2)
            else (0, e :: rest)
        else if isDigitCode c2 then
          let d := consumeDigitsCnt (c2 :: rest2) 0 0
          ((d.1 : Int), d.2.2)
        else (0, e :: rest)
    else (0, e :: rest)

/-- Fraction and exponent of a JSON number after the integer part. -/
def parseJNumRest (neg : Bool) (mant : Nat) (l : List Nat) : Option (JValue × List Nat) :=
  let fr := parseJNumFrac mant l
  let ex := parseJExp fr.2.2
  some (JValue.num neg fr.1 (ex.1 - (fr.2.1 : Int)), ex.2)

/-- Magnitude of a JSON number: `0`, or a nonzero digit followed by more
digits (leading zeros are a syntax error in JSON). -/
def parseJNumMag (neg : Bool) (l : List Nat) : Option (JValue × List Nat) :=
  match l with
  | [] => none
  | c :: rest =>
    if c = 48 then parseJNumRest neg 0 rest
    else if 49 ≤ c ∧ c ≤ 57 then
      let d := consumeDigitsCnt (c :: rest) 0 0
      parseJNumRest neg d.1 d.2.2
    else none

/-- A JSON number token: optional minus sign, then the magnitude. -/
def parseJNumber (l : List Nat) : Option (JValue × List Nat) :=
  match l with
  | [] => none
  | c :: rest =>
    if c = 45 then parseJNumMag true rest
    else parseJNumMag false (c :: rest)

mutual

/-- Parse one JSON value.  The fuel only bounds the nesting recursion; the
top level supplies more fuel than any input can consume. -/
def parseJValue : Nat → List Nat → Option (JValue × List Nat)
  | 0, _ => none
  | fuel + 1, l =>
    match l with
    | [] => none
    | c :: rest =>
      if c = 110 then
        match rest with
        | 117 :: 108 :: 108 :: rest2 => some (JValue.null, rest2)
        | _ => none
      else if c = 116 then
        match rest with
        | 114 :: 117 :: 101 :: rest2 => some (JValue.bool true, rest2)
        | _ => none
      else if c = 102 then
        match rest with
        | 97 :: 108 :: 115 :: 101 :: rest2 => some (JValue.bool false, rest2)
        | _ => none
      else if c = 34 then
        match parseJString rest with
        | some (s, rest2) => some (JValue.str s, rest2)
        | none => none
      else if c = 91 then
        match skipWs rest with
        | 93 :: rest2 => some (JValue.arr [], rest2)
        | r =>
          match parseJElems fuel r with
          | some (vs, rest2) => some (JValue.arr vs, rest2)
          | none => none
      else if c = 123 then
        match skipWs rest with
        | 125 :: rest2 => some (JValue.obj [], rest2)
        | r =>
          match parseJMembers fuel r with
          | some (ms, rest2) => some (JValue.obj ms, rest2)
          | none => none
      else parseJNumber (c :: rest)

/-- Parse the elements of a non-empty JSON array, including the closing
bracket. -/
def parseJElems : Nat → List Nat → Option (List JValue × List Nat)
  | 0, _ => none
  | fuel + 1, l =>
    match parseJValue fuel l with
    | none => none
    | some (v, rest) =>
      match skipWs rest with
      | 44 :: rest2 =>
        match parseJElems fuel (skipWs rest2) with
        | some (vs, rest3) => some (v :: vs, rest3)
        | none => none
      | 93 :: rest2 => some ([v], rest2)
      | _ => none

/-- Parse the members of a non-empty JSON object, including the closing
brace. -/
def parseJMembers : Nat → List Nat → Option (List (List Nat × JValue) × List Nat)
  | 0, _ => none
  | fuel + 1, l =>
    match l with
    | 34 :: rest =>
      match parseJString rest with
      | none => none
      | some (k, rest2) =>
        match skipWs rest2 with
        | 58 :: rest3 =>
          match parseJValue fuel (skipWs rest3) with
          | none => none
          | some (v, rest4) =>
            match skipWs rest4 with
            | 44 :: rest5 =>
              match parseJMembers fuel (skipWs rest5) with
              | some (ms, rest6) => some ((k, v) :: ms, rest6)
              | none => none
            | 125 :: rest5 => some ([(k, v)], rest5)
            | _ => none
        | _ => none
    | _ => none

end

/-- `JSON.parse`: one value surrounded by optional whitespace; any other
leftover input is a syntax error. -/
def jsonParse (l : List Nat) : Option JValue :=
  match parseJValue (l.length + 1) (skipWs l) with
  | some (v, rest) => if skipWs rest = [] then some v else none
  | none => none

/-- An exactly-representable natural number read off a parsed JSON number
(`-0` counts as `0`). -/
def jnumToNat (neg : Bool) (mant : Nat) (exp10 : Int) : Option Nat :=
  if neg = true ∧ mant ≠ 0 then none
  else if 0 ≤ exp10 then some (mant * 10 ^ exp10.toNat)
  else if mant % 10 ^ (-exp10).toNat = 0 then some (mant / 10 ^ (-exp10).toNat)
  else none

def isScalarCode (c : Nat) : Bool := decide (c < 0xD800 ∨ (0xE000 ≤ c ∧ c < 0x110000))

/-- Rebuild a Lean string from parsed code points; code points outside the
scalar range (lone surrogates from crafted escapes) have no Lean-string
counterpart. -/
def decodeCodes (s : List Nat) : Option String :=
  if s.all isScalarCode then some ⟨s.map Char.ofNat⟩ else none

/-- Object member lookup; later duplicate keys win, as in a JS object built
by `JSON.parse`. -/
def jlookup : List (List Nat × JValue) → List Nat → Option JValue
  | [], _ => none
  | (k2, v) :: rest, k =>
    match jlookup rest k with
    | some r => some r
    | none => if k2 = k then some v else none

def jstrField (ms : List (List Nat × JValue)) (k : List Nat) : Option String :=
  match jlookup ms k with
  | some (JValue.str s) => decodeCodes s
  | _ => none

def jnatField (ms : List (List Nat × JValue)) (k : List Nat) : Option Nat :=
  match jlookup ms k with
  | some (JValue.num neg mant e) => jnumToNat neg mant e
  | _ => none

/-- The per-record conversion of `importTasksFromLink`
(`importedTasks.map(task => ({id: task.id, ...}))`).  JS builds a
degenerate record from an element that is not an object of the expected
shape, reading `undefined` fields (or throwing on `null`, which the outer
catch turns into an overall failure); the `Task` type here has total
fields, so every degenerate shape is folded into `none`.  No claim touches
the degenerate region. -/
def jsonToTask (v : JValue) : Option Task :=
  match v with
  | JValue.obj ms =>
    match jstrField ms (codesOf "id"), jstrField ms (codesOf "name"),
        jnatField ms (codesOf "intervalDays"), jnatField ms (codesOf "lastCompleted"),
        jnatField ms (codesOf "createdAt") with
    | some id, some name, some iv, some lc, some ca =>
        some ⟨id, name, iv, lc, ca, jnatField ms (codesOf "initialDaysOffset")⟩
    | _, _, _, _, _ => none
  | _ => none

/-- The `JValue` a serialised task parses back to. -/
def taskJValue (t : Task) : JValue :=
  JValue.obj
    ([(codesOf "id", JValue.str (codesOf t.id)),
      (codesOf "name", JValue.str (codesOf t.name)),
      (codesOf "intervalDays", JValue.num false t.intervalDays 0),
      (codesOf "lastCompleted", JValue.num false t.lastCompleted 0),
      (codesOf "createdAt", JValue.num false t.createdAt 0)] ++
      match t.initialDaysOffset with
      | some k => [(codesOf "initialDaysOffset", JValue.num false k 0)]
      | none => [])

/-- `encodeUnicodeToBase64` of `store.ts`. -/
def encodeUnicodeToBase64 (s : List Nat) : List Nat := toUrlSafe (btoa (utf8Encode s))

/-- `decodeUnicodeFromBase64` of `store.ts`; `none` is the
`InvalidCharacterError` escaping from `atob`. -/
def decodeUnicodeFromBase64 (s : List Nat) : Option (List Nat) :=
  match atob (fromUrlSafe s) with
  | some bytes => some (utf8Decode bytes)
  | none => none

/-- The value of the `tasks` query parameter built by `generateMagicLink`. -/
def magicLinkPayload (ts : List Task) : List Nat :=
  encodeUnicodeToBase64 (jsonTasksCodes ts)

/-- `generateMagicLink` of `store.ts`: the empty store yields the empty
string, otherwise the current URL carries the encoded payload. -/
def generateMagicLink (currentUrl : List Nat) (ts : List Task) : List Nat :=
  if ts = [] then [] else currentUrl ++ codesOf "?tasks=" ++ magicLinkPayload ts

/-- `importTasksFromLink` of `store.ts`, acting on an explicit store:
decode, parse, require a non-empty array, convert the records and merge by
id.  Every failure, including the exceptions `atob` and `JSON.parse` throw
in JS, is caught and reported as `(false, store)`. -/
def importTasksFromLink (store : List Task) (encodedTasks : List Nat) : Bool × List Task :=
  match decodeUnicodeFromBase64 encodedTasks with
  | none => (false, store)
  | some json =>
    match jsonParse json with
    | none => (false, store)
    | some (JValue.arr items) =>
      if items.length = 0 then (false, store)
      else
        match items.mapM jsonToTask with
        | some newTasks => mergeImportedTasks store newTasks
        | none => (false, store)
    | some _ => (false, store)

/-- The malformed-import condition of the specification: the base64url
decoding fails, the decoded text is not valid JSON, the JSON value is not
an array, or the array is empty. -/
def malformedImport (encodedTasks : List Nat) : Bool :=
  match decodeUnicodeFromBase64 encodedTasks with
  | none => true
  | some json =>
    match jsonParse json with
    | none => true
    | some (JValue.arr items) => items.isEmpty
    | some _ => true

/-- C1: `getDaysRemaining` uses `initialDaysOffset ?? intervalDays` minus
the calendar days elapsed since creation while the task is in its first
cycle (`lastCompleted` equal to `createdAt`), and `intervalDays` minus the
calendar days elapsed since the last completion afterwards; the result is
not clamped, so with `initialDaysOffset = k` it is `k` on the creation day,
`0` on day `D + k` and `-1` on day `D + k + 1`, at any time of day.  The
hypothesis `task.createdAt ≠ 0` says the task has a creation timestamp (the
code substitutes `lastCompleted` for a falsy one). -/
theorem getDaysRemaining_spec (task : Task) (now : Nat) (hc : task.createdAt ≠ 0) :
    (task.lastCompleted = task.createdAt →
      getDaysRemaining task now =
        ((task.initialDaysOffset.getD task.intervalDays : Nat) : Int) -
          daysBetween (timestampToDate task.createdAt) (timestampToDate now)) ∧
    (task.lastCompleted ≠ task.createdAt →
      getDaysRemaining task now =
        (task.intervalDays : Int) -
          daysBetween (timestampToDate task.lastCompleted) (timestampToDate now)) ∧
    (∀ k : Nat, task.lastCompleted = task.createdAt → task.initialDaysOffset = some k →
      (timestampToDate now = timestampToDate task.createdAt →
        getDaysRemaining task now = (k : Int)) ∧
      (timestampToDate now = timestampToDate task.createdAt + k →
        getDaysRemaining task now = 0) ∧
      (timestampToDate now = timestampToDate task.createdAt + k + 1 →
        getDaysRemaining task now = -1)) := by
  unfold getDaysRemaining
  simp only [hc, if_neg, ne_eq, not_false_eq_true, if_true, ite_true, ite_false]
  refine ⟨?_, ?_, ?_⟩
  · intro h
    simp [h, daysBetween]
  · intro h
    simp [h, daysBetween]
  · intro k h hk
    simp only [h, hk, if_pos rfl, Option.getD_some, daysBetween]
    refine ⟨?_, ?_, ?_⟩ <;> intro hd <;> rw [hd] <;> push_cast <;> ring

/-- Witness for `getDaysRemaining_spec` at a concrete task and time. -/
theorem getDaysRemaining_spec_witness :
    getDaysRemaining ⟨"w1", "water", 10, 86400000, 86400000, some 3⟩
        (5 * 86400000 + 5000) = -1 := by
  have h := (getDaysRemaining_spec ⟨"w1", "water", 10, 86400000, 86400000, some 3⟩
    (5 * 86400000 + 5000) (by decide)).2.2 3 rfl rfl
  exact h.2.2 (by decide)

/-- C2: `getDaysOverdue` is always the steady-state count, calendar days
since the last completion minus `intervalDays`; it reads neither `createdAt`
nor `initialDaysOffset`, so changing those fields never changes it. -/
theorem getDaysOverdue_spec (task : Task) (now : Nat) :
    getDaysOverdue task now =
      daysBetween (timestampToDate task.lastCompleted) (timestampToDate now) -
        (task.intervalDays : Int) ∧
    (∀ (c : Nat) (off : Option Nat),
      getDaysOverdue { task with createdAt := c, initialDaysOffset := off } now =
        getDaysOverdue task now) := by
  refine ⟨rfl, ?_⟩
  intro c off
  rfl

/-- C3: `getDueDate` is today (date-only, local midnight) plus the days
remaining clamped below at `0`; when the task is due or overdue it returns
today, and it never returns a date before today. -/
theorem getDueDate_spec (task : Task) (now : Nat) (todayLocal : Int) :
    getDueDate task now todayLocal = todayLocal + max (getDaysRemaining task now) 0 ∧
    (getDaysRemaining task now ≤ 0 → getDueDate task now todayLocal = todayLocal) ∧
    todayLocal ≤ getDueDate task now todayLocal := by
  unfold getDueDate
  rcases le_or_lt (getDaysRemaining task now) 0 with h | h
  · rw [if_pos h, max_eq_right h]
    exact ⟨by ring, fun _ => rfl, le_refl _⟩
  · rw [if_neg (not_le.mpr h), max_eq_left h.le]
    exact ⟨rfl, fun hle => absurd hle (not_le.mpr h), by omega⟩

/-- C5: the import merge never overwrites an existing task: the stored list
is kept verbatim as a prefix, exactly the payload records whose ids are not
yet present are appended, and the Boolean is true iff at least one record
was added.  In particular a payload of one existing id and one new id adds
exactly the new record. -/
theorem mergeImportedTasks_spec (stored payload : List Task) :
    (mergeImportedTasks stored payload).2 =
      stored ++ payload.filter (fun t => !((stored.map fun u => u.id).contains t.id)) ∧
    ((mergeImportedTasks stored payload).1 = true ↔
      payload.filter (fun t => !((stored.map fun u => u.id).contains t.id)) ≠ []) ∧
    (∀ pOld pNew : Task,
      (stored.map fun u => u.id).contains pOld.id = true →
      (stored.map fun u => u.id).contains pNew.id = false →
      mergeImportedTasks stored [pOld, pNew] = (true, stored ++ [pNew])) := by
  refine ⟨?_, ?_, ?_⟩
  · simp only [mergeImportedTasks]
    split
    · rfl
    · rename_i h
      have h0 : (payload.filter fun t => !((stored.map fun u => u.id).contains t.id)).length
          = 0 := by omega
      rw [List.length_eq_zero.mp h0]
      simp
  · simp only [mergeImportedTasks]
    split
    · rename_i h
      simp only [true_iff, ne_eq]
      intro hnil
      rw [hnil] at h
      simp at h
    · rename_i h
      have h0 : (payload.filter fun t => !((stored.map fun u => u.id).contains t.id)).length
          = 0 := by omega
      rw [List.length_eq_zero] at h0
      rw [h0]
      simp
  · intro pOld pNew hOld hNew
    have hfilter : List.filter (fun t => !((stored.map fun u => u.id).contains t.id))
        [pOld, pNew] = [pNew] := by
      simp only [List.filter_cons, List.filter_nil, hOld, hNew, Bool.not_true, Bool.not_false]
      simp
    simp only [mergeImportedTasks, hfilter]
    simp

/-- Witness for `mergeImportedTasks_spec`: one known id, one new id. -/
theorem mergeImportedTasks_spec_witness :
    mergeImportedTasks [⟨"a", "old", 1, 0, 0, none⟩]
        [⟨"a", "dup", 2, 9, 9, some 1⟩, ⟨"b", "new", 3, 7, 7, none⟩] =
      (true, [⟨"a", "old", 1, 0, 0, none⟩, ⟨"b", "new", 3, 7, 7, none⟩]) := by
  have h := (mergeImportedTasks_spec [⟨"a", "old", 1, 0, 0, none⟩]
    [⟨"a", "dup", 2, 9, 9, some 1⟩, ⟨"b", "new", 3, 7, 7, none⟩]).2.2
    ⟨"a", "dup", 2, 9, 9, some 1⟩ ⟨"b", "new", 3, 7, 7, none⟩ (by decide) (by decide)
  simpa using h

/-- C8: `completeTask` only moves `lastCompleted` of the matching task to
`now`; length, order, every other task and every other field are kept. -/
theorem completeTask_spec (tasks : List Task) (id : String) (now : Nat) :
    (completeTask tasks id now).length = tasks.length ∧
    (∀ i : Nat, ∀ h : i < tasks.length,
      let t := tasks.get ⟨i, h⟩
      let u := (completeTask tasks id now).get ⟨i, by simpa [completeTask] using h⟩
      u.id = t.id ∧ u.name = t.name ∧ u.intervalDays = t.intervalDays ∧
      u.createdAt = t.createdAt ∧ u.initialDaysOffset = t.initialDaysOffset ∧
      u.lastCompleted = (if t.id = id then now else t.lastCompleted) ∧
      (t.id ≠ id → u = t)) := by
  constructor
  · simp [completeTask]
  · intro i h
    simp only [completeTask, List.get_eq_getElem, List.getElem_map]
    split
    · rename_i hid
      exact ⟨rfl, rfl, rfl, rfl, rfl, rfl, fun hne => absurd hid hne⟩
    · rename_i hid
      exact ⟨rfl, rfl, rfl, rfl, rfl, rfl, fun _ => rfl⟩

/-- Witness for `completeTask_spec` at a two-element store. -/
theorem completeTask_spec_witness :
    (completeTask [⟨"a", "x", 1, 5, 5, none⟩, ⟨"b", "y", 2, 6, 6, none⟩] "b" 99).get
        ⟨1, by decide⟩ = ⟨"b", "y", 2, 99, 6, none⟩ := by
  have h := (completeTask_spec [⟨"a", "x", 1, 5, 5, none⟩, ⟨"b", "y", 2, 6, 6, none⟩]
    "b" 99).2 1 (by decide)
  simp only at h
  obtain ⟨h1, h2, h3, h4, h5, h6, -⟩ := h
  have : (completeTask [⟨"a", "x", 1, 5, 5, none⟩, ⟨"b", "y", 2, 6, 6, none⟩] "b" 99).get
      ⟨1, by decide⟩ = ⟨"b", "y", 2, 99, 6, none⟩ := by
    decide
  exact this

/-- C10: outside the first cycle, `getDaysOverdue` is the exact negation of
`getDaysRemaining`. -/
theorem getDaysOverdue_neg_getDaysRemaining (task : Task) (now : Nat)
    (hc : task.createdAt ≠ 0) (hne : task.lastCompleted ≠ task.createdAt) :
    getDaysOverdue task now + getDaysRemaining task now = 0 := by
  unfold getDaysOverdue getDaysRemaining
  simp only [hc, ne_eq, not_false_eq_true, if_true, ite_true, ite_false, hne, if_neg,
    daysBetween]
  ring

/-- Witness for `getDaysOverdue_neg_getDaysRemaining`. -/
theorem getDaysOverdue_neg_getDaysRemaining_witness :
    getDaysOverdue ⟨"a", "x", 4, 86400000 * 2, 86400000, none⟩ (86400000 * 9) +
      getDaysRemaining ⟨"a", "x", 4, 86400000 * 2, 86400000, none⟩ (86400000 * 9) = 0 :=
  getDaysOverdue_neg_getDaysRemaining ⟨"a", "x", 4, 86400000 * 2, 86400000, none⟩
    (86400000 * 9) (by decide) (by decide)

/-- C9 fails on the code: the loader returns persisted records verbatim and
backfills nothing, so a record missing `createdAt` and `initialDaysOffset`
comes out of `loadTasks` still missing both. -/
theorem loadTasks_no_backfill :
    loadTasks (some [legacyRecord]) = [legacyRecord] ∧
    legacyRecord.createdAt = 0 ∧ legacyRecord.initialDaysOffset = none := by
  refine ⟨rfl, rfl, rfl⟩

/-- C9 as amended: `loadTasks` tolerates old records only by returning them
unchanged; the backfill the spec describes happens at computation time
instead: `getDaysRemaining` substitutes `lastCompleted` for a missing
`createdAt` and `intervalDays` for a missing `initialDaysOffset`. -/
theorem loadTasks_passthrough_spec :
    (∀ ts : List Task, loadTasks (some ts) = ts) ∧
    loadTasks none = [] ∧
    (∀ (task : Task) (now : Nat), task.createdAt = 0 →
      getDaysRemaining task now =
        getDaysRemaining { task with createdAt := task.lastCompleted } now) ∧
    (∀ (task : Task) (now : Nat), task.initialDaysOffset = none →
      getDaysRemaining task now =
        getDaysRemaining { task with initialDaysOffset := some task.intervalDays } now) := by
  refine ⟨fun ts => rfl, rfl, ?_, ?_⟩
  · intro task now h
    unfold getDaysRemaining
    rcases Nat.eq_zero_or_pos task.lastCompleted with h0 | hpos
    · simp [h, h0]
    · simp [h, Nat.pos_iff_ne_zero.mp hpos]
  · intro task now h
    unfold getDaysRemaining
    simp [h]

/-- Witness for `loadTasks_passthrough_spec` on a legacy record. -/
theorem loadTasks_passthrough_spec_witness :
    getDaysRemaining ⟨"old1", "legacy", 3, 86400000, 0, none⟩ (86400000 * 2) =
      getDaysRemaining ⟨"old1", "legacy", 3, 86400000, 86400000, none⟩ (86400000 * 2) :=
  loadTasks_passthrough_spec.2.2.1 ⟨"old1", "legacy", 3, 86400000, 0, none⟩
    (86400000 * 2) rfl

/-- C7 fails on the code for overdue counts of a month or more whose
remainder is less than a week: the remainder is printed in days, not weeks.
At 33 days the output is `1mo 3d ago`, not a weeks phrase. -/
theorem formatOverdueTime_months_counterexample :
    formatOverdueTime 33 = "1mo 3d ago" ∧
    ("1mo 3d ago" : String) ≠ "1mo 0w ago" ∧
    ("1mo 3d ago" : String) ≠ "1 month ago" := by
  refine ⟨by decide, by decide, by decide⟩

/-- C7 as amended: `formatOverdueTime` (English) returns `today` at `0`, a
days-ago phrase for 1..6, weeks with the remainder in days for 7..29, and
for 30 and above months of 30 days with the remainder in weeks when it is at
least a week and in days otherwise; `formatOverdueTime 0 = "today"`,
`formatOverdueTime 6 = "6 days ago"`, `formatOverdueTime 30 = "1 month ago"`. -/
theorem formatOverdueTime_spec (n : Nat) :
    (n = 0 → formatOverdueTime n = "today") ∧
    (1 ≤ n → n ≤ 6 →
      formatOverdueTime n = toString n ++ " day" ++ plural n ++ " ago") ∧
    (7 ≤ n → n ≤ 29 →
      formatOverdueTime n =
        if n % 7 = 0 then toString (n / 7) ++ " week" ++ plural (n / 7) ++ " ago"
        else toString (n / 7) ++ "w " ++ toString (n % 7) ++ "d ago") ∧
    (30 ≤ n →
      formatOverdueTime n =
        if n % 30 = 0 then toString (n / 30) ++ " month" ++ plural (n / 30) ++ " ago"
        else if n % 30 < 7 then toString (n / 30) ++ "mo " ++ toString (n % 30) ++ "d ago"
        else toString (n / 30) ++ "mo " ++ toString (n % 30 / 7) ++ "w ago") ∧
    formatOverdueTime 0 = "today" ∧
    formatOverdueTime 6 = "6 days ago" ∧
    formatOverdueTime 30 = "1 month ago" := by
  refine ⟨?_, ?_, ?_, ?_, by decide, by decide, by decide⟩
  · intro h; rw [h]; decide
  · intro h1 h6
    unfold formatOverdueTime
    rw [if_neg (by omega), if_pos (by omega)]
  · intro h7 h29
    unfold formatOverdueTime
    rw [if_neg (by omega), if_neg (by omega), if_pos (by omega)]
  · intro h30
    simp only [formatOverdueTime]
    rw [if_neg (by omega), if_neg (by omega), if_neg (by omega)]
    split_ifs <;> first | rfl | omega

/-- Witness for `formatOverdueTime_spec` in the months range. -/
theorem formatOverdueTime_spec_witness : formatOverdueTime 35 = "1mo 5d ago" := by
  have h := (formatOverdueTime_spec 35).2.2.2.1 (by decide)
  simpa using h

/-- C6: every malformed import input (invalid base64url, undecodable or
invalid JSON, a JSON value that is not an array, or an empty array) makes
`importTasksFromLink` return `false` and leave the store unchanged; the
embedding is a total function, so no exception escapes. -/
theorem importTasksFromLink_malformed (store : List Task) (encoded : List Nat)
    (h : malformedImport encoded = true) :
    importTasksFromLink store encoded = (false, store) := by
  unfold importTasksFromLink
  unfold malformedImport at h
  cases hd : decodeUnicodeFromBase64 encoded with
  | none => rfl
  | some json =>
    rw [hd] at h
    try dsimp only at h
    try dsimp only
    cases hp : jsonParse json with
    | none => rfl
    | some v =>
      rw [hp] at h
      try dsimp only at h
      cases v with
      | arr items =>
        try dsimp only at h
        have hlen : items.length = 0 := by
          simpa [List.isEmpty_iff, List.length_eq_zero] using h
        simp [hlen]
      | null => rfl
      | bool b => rfl
      | num neg mant e => rfl
      | str s => rfl
      | obj ms => rfl

/-- Witness for `importTasksFromLink_malformed`: `!` is not base64. -/
theorem importTasksFromLink_malformed_witness :
    importTasksFromLink [] (codesOf "!") = (false, []) :=
  importTasksFromLink_malformed [] (codesOf "!") (by decide)

theorem b64ValOf_b64CharOf : ∀ n < 64, b64ValOf (b64CharOf n) = some n := by decide

theorem b64CharOf_ne_61 : ∀ n < 64, b64CharOf n ≠ 61 := by decide

theorem b64Sextets_lt (l : List Nat) (hl : ∀ b ∈ l, b < 256) :
    ∀ s ∈ b64Sextets l, s < 64 := by
  induction l using b64Sextets.induct with
  | case1 x y z rest IH =>
    intro s hs
    have hx : x < 256 := hl x (by simp)
    have hy : y < 256 := hl y (by simp)
    have hz : z < 256 := hl z (by simp)
    simp only [b64Sextets, List.mem_cons] at hs
    rcases hs with h | h | h | h | h
    · omega
    · omega
    · omega
    · omega
    · exact IH (fun b hb => hl b (by simp [hb])) s h
  | case2 x y =>
    intro s hs
    have hx : x < 256 := hl x (by simp)
    have hy : y < 256 := hl y (by simp)
    simp only [b64Sextets, List.mem_cons] at hs
    rcases hs with h | h | h | h <;> first | omega | simp at h
  | case3 x =>
    intro s hs
    have hx : x < 256 := hl x (by simp)
    simp only [b64Sextets, List.mem_cons] at hs
    rcases hs with h | h | h <;> first | omega | simp at h
  | case4 =>
    intro s hs
    simp [b64Sextets] at hs

theorem b64Bytes_b64Sextets (l : List Nat) (hl : ∀ b ∈ l, b < 256) :
    b64Bytes (b64Sextets l) = l := by
  induction l using b64Sextets.induct with
  | case1 x y z rest IH =>
    have hx : x < 256 := hl x (by simp)
    have hy : y < 256 := hl y (by simp)
    have hz : z < 256 := hl z (by simp)
    simp only [b64Sextets, b64Bytes, List.cons.injEq]
    refine ⟨by omega, by omega, by omega, IH fun b hb => hl b (by simp [hb])⟩
  | case2 x y =>
    have hx : x < 256 := hl x (by simp)
    have hy : y < 256 := hl y (by simp)
    simp only [b64Sextets, b64Bytes, List.cons.injEq]
    refine ⟨by omega, by omega, trivial⟩
  | case3 x =>
    have hx : x < 256 := hl x (by simp)
    simp only [b64Sextets, b64Bytes, List.cons.injEq]
    refine ⟨by omega, trivial⟩
  | case4 => rfl

theorem b64Sextets_length (l : List Nat) :
    (b64Sextets l).length = l.length + (l.length + 2) / 3 := by
  induction l using b64Sextets.induct with
  | case1 x y z rest IH =>
    simp only [b64Sextets, List.length_cons, IH]
    omega
  | case2 x y => simp [b64Sextets]
  | case3 x => simp [b64Sextets]
  | case4 => simp [b64Sextets]

theorem stripB64Pad_append (a : List Nat) (p : Nat) (hp : p ≤ 2)
    (ha : ∀ c ∈ a, c ≠ 61) : stripB64Pad (a ++ List.replicate p 61) = a := by
  interval_cases p
  · unfold stripB64Pad
    have hs : (a ++ List.replicate 0 61).reverse = a.reverse := by simp
    rw [hs]
    rcases hrev : a.reverse with _ | ⟨c1, t⟩
    · simp
    · have hc1 : c1 ≠ 61 := by
        refine ha c1 (List.mem_reverse.mp ?_)
        rw [hrev]; simp
      cases t with
      | nil => simp [hc1]
      | cons c2 t2 => simp [hc1]
  · unfold stripB64Pad
    have hs : (a ++ List.replicate 1 61).reverse = 61 :: a.reverse := by simp
    rw [hs]
    rcases hrev : a.reverse with _ | ⟨c1, t⟩
    · have ha0 : a = [] := by
        have := congrArg List.reverse hrev
        simpa using this
      simp [ha0]
    · have hc1 : c1 ≠ 61 := by
        refine ha c1 (List.mem_reverse.mp ?_)
        rw [hrev]; simp
      have hrr : (c1 :: t).reverse = a := by
        rw [← hrev]; simp
      simp [hc1, hrr]
  · unfold stripB64Pad
    have hs : (a ++ List.replicate 2 61).reverse = 61 :: 61 :: a.reverse := by simp
    rw [hs]
    simp

theorem mapM_map_some {α β : Type} (l : List α) (g : α → β) (f : β → Option α)
    (h : ∀ a ∈ l, f (g a) = some a) : (l.map g).mapM f = some l := by
  induction l with
  | nil => rfl
  | cons a t IH =>
    simp only [List.map_cons, List.mapM_cons, h a (by simp),
      IH fun b hb => h b (by simp [hb]), Option.pure_def, Option.bind_some]
    rfl

theorem b64UrlChar_eq : ∀ n < 64,
    (if b64CharOf n = 43 then 45 else if b64CharOf n = 47 then 95 else b64CharOf n) =
      (if n = 62 then 45 else if n = 63 then 95 else b64CharOf n) := by decide

theorem b64UrlChar_ne61 : ∀ n < 64,
    ((if n = 62 then 45 else if n = 63 then 95 else b64CharOf n) != 61) = true := by decide

theorem b64RestoreChar : ∀ n < 64,
    (if (if n = 62 then 45 else if n = 63 then 95 else b64CharOf n) = 45 then 43
     else if (if n = 62 then 45 else if n = 63 then 95 else b64CharOf n) = 95 then 47
     else (if n = 62 then 45 else if n = 63 then 95 else b64CharOf n)) = b64CharOf n := by
  decide

theorem b64CharOf_not_ws : ∀ n < 64,
    (!(b64CharOf n == 9 || b64CharOf n == 10 || b64CharOf n == 12 || b64CharOf n == 13 ||
        b64CharOf n == 32)) = true := by decide

theorem b64_roundtrip (bytes : List Nat) (hb : ∀ b ∈ bytes, b < 256) :
    atob (fromUrlSafe (toUrlSafe (btoa bytes))) = some bytes := by
  have hs : ∀ s ∈ b64Sextets bytes, s < 64 := b64Sextets_lt bytes hb
  have h1 : toUrlSafe (btoa bytes) =
      (b64Sextets bytes).map
        fun s => if s = 62 then 45 else if s = 63 then 95 else b64CharOf s := by
    unfold btoa toUrlSafe
    rw [List.map_append, List.map_map, List.map_replicate]
    norm_num
    have hmapeq : (b64Sextets bytes).map
        ((fun c => if c = 43 then 45 else if c = 47 then 95 else c) ∘ b64CharOf) =
        (b64Sextets bytes).map
          (fun s => if s = 62 then 45 else if s = 63 then 95 else b64CharOf s) := by
      apply List.map_congr_left
      intro s hsm
      simpa using b64UrlChar_eq s (hs s hsm)
    rw [hmapeq]
    apply List.filter_eq_self.mpr
    intro c hc
    obtain ⟨s, hsm, rfl⟩ := List.mem_map.mp hc
    exact b64UrlChar_ne61 s (hs s hsm)
  have h2 : fromUrlSafe (toUrlSafe (btoa bytes)) =
      (b64Sextets bytes).map b64CharOf ++
        List.replicate ((4 - (b64Sextets bytes).length % 4) % 4) 61 := by
    rw [h1]
    simp only [fromUrlSafe, List.map_map]
    have hstd : (b64Sextets bytes).map
        ((fun c => if c = 45 then 43 else if c = 95 then 47 else c) ∘
          fun s => if s = 62 then 45 else if s = 63 then 95 else b64CharOf s) =
        (b64Sextets bytes).map b64CharOf := by
      apply List.map_congr_left
      intro s hsm
      simpa using b64RestoreChar s (hs s hsm)
    rw [hstd, List.length_map]
  rw [h2]
  have hlenS := b64Sextets_length bytes
  have hmod : (b64Sextets bytes).length % 4 ≠ 1 := by omega
  have hpad2 : (4 - (b64Sextets bytes).length % 4) % 4 ≤ 2 := by omega
  simp only [atob]
  have hfilter : ((b64Sextets bytes).map b64CharOf ++
      List.replicate ((4 - (b64Sextets bytes).length % 4) % 4) 61).filter
      (fun c => !(c == 9 || c == 10 || c == 12 || c == 13 || c == 32)) =
      (b64Sextets bytes).map b64CharOf ++
        List.replicate ((4 - (b64Sextets bytes).length % 4) % 4) 61 := by
    apply List.filter_eq_self.mpr
    intro c hc
    rcases List.mem_append.mp hc with hcm | hcm
    · obtain ⟨s, hsm, rfl⟩ := List.mem_map.mp hcm
      exact b64CharOf_not_ws s (hs s hsm)
    · have : c = 61 := List.eq_of_mem_replicate hcm
      subst this
      decide
  rw [hfilter]
  have hlen0 : ((b64Sextets bytes).map b64CharOf ++
      List.replicate ((4 - (b64Sextets bytes).length % 4) % 4) 61).length % 4 = 0 := by
    rw [List.length_append, List.length_map, List.length_replicate]
    omega
  rw [if_pos hlen0]
  have hstrip : stripB64Pad ((b64Sextets bytes).map b64CharOf ++
      List.replicate ((4 - (b64Sextets bytes).length % 4) % 4) 61) =
      (b64Sextets bytes).map b64CharOf := by
    apply stripB64Pad_append _ _ hpad2
    intro c hc
    obtain ⟨s, hsm, rfl⟩ := List.mem_map.mp hc
    exact b64CharOf_ne_61 s (hs s hsm)
  rw [hstrip]
  have hlen1 : ¬ ((b64Sextets bytes).map b64CharOf).length % 4 = 1 := by
    rw [List.length_map]
    omega
  rw [if_neg hlen1]
  rw [mapM_map_some _ _ _ fun s hsm => b64ValOf_b64CharOf s (hs s hsm)]
  dsimp only
  rw [b64Bytes_b64Sextets bytes hb]

theorem utf8EncodeChar_lt (c : Nat) (hc : c < 1114112) :
    ∀ b ∈ utf8EncodeChar c, b < 256 := by
  intro b hb
  unfold utf8EncodeChar at hb
  split_ifs at hb with h1 h2 h3
  · simp only [List.mem_singleton] at hb
    omega
  · simp only [List.mem_cons, List.not_mem_nil, or_false] at hb
    rcases hb with rfl | rfl <;> omega
  · simp only [List.mem_cons, List.not_mem_nil, or_false] at hb
    rcases hb with rfl | rfl | rfl <;> omega
  · simp only [List.mem_cons, List.not_mem_nil, or_false] at hb
    rcases hb with rfl | rfl | rfl | rfl <;> omega

theorem utf8Cont2 (c lo hi : Nat) (rest : List Nat) (hc : c < 65536)
    (h1 : lo ≤ 128 + c / 64 % 64) (h2 : 128 + c / 64 % 64 ≤ hi) (_h3 : hi ≤ 191) :
    utf8DecodeAux (some (2, c / 4096, lo, hi))
      ((128 + c / 64 % 64) :: (128 + c % 64) :: rest) = c :: utf8DecodeAux none rest := by
  simp only [utf8DecodeAux]
  rw [if_pos (by omega)]
  rw [if_neg (by omega)]
  rw [if_pos (by omega)]
  rw [if_pos trivial]
  have hval : (c / 4096 * 64 + (128 + c / 64 % 64) % 64) * 64 + (128 + c % 64) % 64 = c := by
    omega
  rw [hval]

theorem utf8Cont3 (c lo hi : Nat) (rest : List Nat) (hc : c < 1114112)
    (h1 : lo ≤ 128 + c / 4096 % 64) (h2 : 128 + c / 4096 % 64 ≤ hi) (_h3 : hi ≤ 191) :
    utf8DecodeAux (some (3, c / 262144, lo, hi))
      ((128 + c / 4096 % 64) :: (128 + c / 64 % 64) :: (128 + c % 64) :: rest) =
      c :: utf8DecodeAux none rest := by
  simp only [utf8DecodeAux]
  rw [if_pos (by omega)]
  rw [if_neg (by omega)]
  rw [if_pos (by omega)]
  rw [if_neg (by omega)]
  rw [if_pos (by omega)]
  rw [if_pos trivial]
  have hval : ((c / 262144 * 64 + (128 + c / 4096 % 64) % 64) * 64 +
      (128 + c / 64 % 64) % 64) * 64 + (128 + c % 64) % 64 = c := by omega
  rw [hval]

theorem utf8DecodeAux_encodeChar (c : Nat) (hc : c < 1114112)
    (hsur : ¬(55296 ≤ c ∧ c ≤ 57343)) (rest : List Nat) :
    utf8DecodeAux none (utf8EncodeChar c ++ rest) = c :: utf8DecodeAux none rest := by
  rcases Nat.lt_or_ge c 128 with h1 | h1
  · have henc : utf8EncodeChar c = [c] := by
      unfold utf8EncodeChar
      rw [if_pos h1]
    rw [henc]
    simp only [List.cons_append, List.nil_append, utf8DecodeAux]
    have hstep : utf8Step0 c = ([c], none) := by
      unfold utf8Step0
      rw [if_pos (by omega)]
    rw [hstep]
    simp
  · rcases Nat.lt_or_ge c 2048 with h2 | h2
    · have henc : utf8EncodeChar c = [192 + c / 64, 128 + c % 64] := by
        unfold utf8EncodeChar
        rw [if_neg (by omega), if_pos (by omega)]
      rw [henc]
      simp only [List.cons_append, List.nil_append, utf8DecodeAux]
      have hstep : utf8Step0 (192 + c / 64) = ([], some (1, c / 64, 128, 191)) := by
        unfold utf8Step0
        rw [if_neg (by omega), if_pos (by omega)]
        have hm : (192 + c / 64) % 32 = c / 64 := by omega
        rw [hm]
      rw [hstep]
      simp only [List.nil_append, utf8DecodeAux]
      rw [if_pos (by omega)]
      rw [if_pos trivial]
      have hval : c / 64 * 64 + (128 + c % 64) % 64 = c := by omega
      rw [hval]
      rfl
    · rcases Nat.lt_or_ge c 65536 with h3 | h3
      · have henc : utf8EncodeChar c =
            [224 + c / 4096, 128 + c / 64 % 64, 128 + c % 64] := by
          unfold utf8EncodeChar
          rw [if_neg (by omega), if_neg (by omega), if_pos (by omega)]
        rw [henc]
        simp only [List.cons_append, List.nil_append, utf8DecodeAux]
        rcases Nat.lt_or_ge c 4096 with h4 | h4
        · have hstep : utf8Step0 (224 + c / 4096) = ([], some (2, c / 4096, 160, 191)) := by
            unfold utf8Step0
            rw [if_neg (by omega), if_neg (by omega), if_pos (by omega)]
            have hm : (224 + c / 4096) % 16 = c / 4096 := by omega
            rw [hm]
          rw [hstep]
          simp only [List.nil_append]
          exact utf8Cont2 c 160 191 rest (by omega) (by omega) (by omega) (by omega)
        · rcases Nat.lt_or_ge c 53248 with h5 | h5
          · have hstep : utf8Step0 (224 + c / 4096) =
                ([], some (2, c / 4096, 128, 191)) := by
              unfold utf8Step0
              rw [if_neg (by omega), if_neg (by omega), if_neg (by omega),
                if_pos (by omega)]
              have hm : (224 + c / 4096) % 16 = c / 4096 := by omega
              rw [hm]
            rw [hstep]
            simp only [List.nil_append]
            exact utf8Cont2 c 128 191 rest (by omega) (by omega) (by omega) (by omega)
          · rcases Nat.lt_or_ge c 57344 with h6 | h6
            · have hc7 : c < 55296 := by omega
              have hstep : utf8Step0 (224 + c / 4096) =
                  ([], some (2, c / 4096, 128, 159)) := by
                unfold utf8Step0
                rw [if_neg (by omega), if_neg (by omega), if_neg (by omega),
                  if_neg (by omega), if_pos (by omega)]
                have hm : (224 + c / 4096) % 16 = c / 4096 := by omega
                rw [hm]
              rw [hstep]
              simp only [List.nil_append]
              exact utf8Cont2 c 128 159 rest (by omega) (by omega) (by omega) (by omega)
            · have hstep : utf8Step0 (224 + c / 4096) =
                  ([], some (2, c / 4096, 128, 191)) := by
                unfold utf8Step0
                have hq1 : ¬ (224 + c / 4096 ≤ 127) := by omega
                rw [if_neg hq1, if_neg (by omega), if_neg (by omega),
                  if_neg (by omega), if_neg (by omega), if_pos (by omega)]
                have hm : (224 + c / 4096) % 16 = c / 4096 := by omega
                rw [hm]
              rw [hstep]
              simp only [List.nil_append]
              exact utf8Cont2 c 128 191 rest (by omega) (by omega) (by omega) (by omega)
      · have henc : utf8EncodeChar c =
            [240 + c / 262144, 128 + c / 4096 % 64, 128 + c / 64 % 64, 128 + c % 64] := by
          unfold utf8EncodeChar
          rw [if_neg (by omega), if_neg (by omega), if_neg (by omega)]
        rw [henc]
        simp only [List.cons_append, List.nil_append, utf8DecodeAux]
        rcases Nat.lt_or_ge c 262144 with h4 | h4
        · have hstep : utf8Step0 (240 + c / 262144) =
              ([], some (3, c / 262144, 144, 191)) := by
            unfold utf8Step0
            have hr1 : ¬ (240 + c / 262144 ≤ 127) := by omega
            have hr4 : ¬ (225 ≤ 240 + c / 262144 ∧ 240 + c / 262144 ≤ 236) := by omega
            rw [if_neg hr1, if_neg (by omega), if_neg (by omega),
              if_neg hr4, if_neg (by omega), if_neg (by omega), if_pos (by omega)]
            have hm : (240 + c / 262144) % 8 = c / 262144 := by omega
            rw [hm]
          rw [hstep]
          simp only [List.nil_append]
          exact utf8Cont3 c 144 191 rest (by omega) (by omega) (by omega) (by omega)
        · rcases Nat.lt_or_ge c 1048576 with h5 | h5
          · have hstep : utf8Step0 (240 + c / 262144) =
                ([], some (3, c / 262144, 128, 191)) := by
              unfold utf8Step0
              have hs1 : ¬ (240 + c / 262144 ≤ 127) := by omega
              have hs5 : ¬ (240 + c / 262144 = 237) := by omega
              rw [if_neg hs1, if_neg (by omega), if_neg (by omega),
                if_neg (by omega), if_neg hs5, if_neg (by omega),
                if_neg (by omega), if_pos (by omega)]
              have hm : (240 + c / 262144) % 8 = c / 262144 := by omega
              rw [hm]
            rw [hstep]
            simp only [List.nil_append]
            exact utf8Cont3 c 128 191 rest (by omega) (by omega) (by omega) (by omega)
          · have hstep : utf8Step0 (240 + c / 262144) =
                ([], some (3, c / 262144, 128, 143)) := by
              unfold utf8Step0
              have hn1 : ¬ (240 + c / 262144 ≤ 127) := by omega
              have hn5 : ¬ (240 + c / 262144 = 237) := by omega
              rw [if_neg hn1, if_neg (by omega), if_neg (by omega), if_neg (by omega),
                if_neg hn5, if_neg (by omega), if_neg (by omega), if_neg (by omega),
                if_pos (by omega)]
              have hm : (240 + c / 262144) % 8 = c / 262144 := by omega
              rw [hm]
            rw [hstep]
            simp only [List.nil_append]
            exact utf8Cont3 c 128 143 rest (by omega) (by omega) (by omega) (by omega)

theorem natDigits_bounds (n : Nat) : ∀ d ∈ natDigits n, 48 ≤ d ∧ d ≤ 57 := by
  induction n using Nat.strong_induction_on with
  | _ n IH =>
    intro d hd
    unfold natDigits at hd
    split_ifs at hd with h
    · simp only [List.mem_singleton] at hd
      omega
    · rw [List.mem_append] at hd
      rcases hd with hd | hd
      · exact IH (n / 10) (by omega) d hd
      · simp only [List.mem_singleton] at hd
        omega

theorem natDigits_head (n : Nat) : 1 ≤ n →
    ∃ d t, natDigits n = d :: t ∧ 49 ≤ d ∧ d ≤ 57 := by
  induction n using Nat.strong_induction_on with
  | _ n IH =>
    intro hn
    by_cases h : n < 10
    · refine ⟨48 + n, [], ?_, by omega, by omega⟩
      unfold natDigits
      rw [dif_pos h]
    · obtain ⟨d, t, hd, h1, h2⟩ := IH (n / 10) (by omega) (by omega)
      refine ⟨d, t ++ [48 + n % 10], ?_, h1, h2⟩
      unfold natDigits
      rw [dif_neg h, hd]
      simp

theorem consumeDigitsCnt_stop (s : List Nat) (acc k : Nat)
    (h : ∀ c t, s = c :: t → isDigitCode c = false) :
    consumeDigitsCnt s acc k = (acc, k, s) := by
  cases s with
  | nil => rfl
  | cons c t =>
    simp only [consumeDigitsCnt]
    rw [if_neg (by simp [h c t rfl])]

theorem consumeDigitsCnt_natDigits (n : Nat) : ∀ (acc k : Nat) (s : List Nat),
    consumeDigitsCnt (natDigits n ++ s) acc k =
      consumeDigitsCnt s (acc * 10 ^ (natDigits n).length + n)
        (k + (natDigits n).length) := by
  induction n using Nat.strong_induction_on with
  | _ n IH =>
    intro acc k s
    by_cases h : n < 10
    · have hd : natDigits n = [48 + n] := by
        unfold natDigits
        rw [dif_pos h]
      rw [hd]
      simp only [List.cons_append, List.nil_append, List.length_cons, List.length_nil,
        consumeDigitsCnt]
      rw [if_pos (by simp only [isDigitCode, decide_eq_true_eq]; omega)]
      have hval : acc * 10 + (48 + n - 48) = acc * 10 ^ (0 + 1) + n := by
        rw [pow_succ, pow_zero, Nat.one_mul]
        omega
      rw [hval]
      rfl
    · have hd : natDigits n = natDigits (n / 10) ++ [48 + n % 10] := by
        conv_lhs => rw [natDigits.eq_def]
        rw [dif_neg h]
      rw [hd, List.append_assoc, IH (n / 10) (by omega)]
      simp only [List.singleton_append, consumeDigitsCnt]
      rw [if_pos (by simp only [isDigitCode, decide_eq_true_eq]; omega)]
      have hlen : (natDigits (n / 10) ++ [48 + n % 10]).length =
          (natDigits (n / 10)).length + 1 := by simp
      rw [hlen]
      have hval : (acc * 10 ^ (natDigits (n / 10)).length + n / 10) * 10 +
          (48 + n % 10 - 48) = acc * 10 ^ ((natDigits (n / 10)).length + 1) + n := by
        rw [pow_succ, ← Nat.mul_assoc]
        omega
      rw [hval]
      have hcnt : k + (natDigits (n / 10)).length + 1 =
          k + ((natDigits (n / 10)).length + 1) := by omega
      rw [hcnt]
      rfl

theorem parseJNumber_natDigits (n : Nat) (s : Nat) (rest : List Nat)
    (hs : s = 44 ∨ s = 93 ∨ s = 125) :
    parseJNumber (natDigits n ++ s :: rest) = some (JValue.num false n 0, s :: rest) := by
  have hsd : isDigitCode s = false := by
    rcases hs with rfl | rfl | rfl <;> rfl
  have hs46 : ¬s = 46 := by omega
  have hsexp : ¬(s = 101 ∨ s = 69) := by omega
  have hrest : parseJNumRest false n (s :: rest) =
      some (JValue.num false n 0, s :: rest) := by
    simp only [parseJNumRest, parseJNumFrac]
    rw [if_neg hs46]
    dsimp only
    simp only [parseJExp]
    rw [if_neg hsexp]
    norm_num
  rcases Nat.eq_zero_or_pos n with rfl | hn
  · have hd : natDigits 0 = [48] := by
      unfold natDigits
      rw [dif_pos (by omega)]
    rw [hd]
    simp only [List.cons_append, List.nil_append, parseJNumber, parseJNumMag]
    rw [if_neg (by omega), if_pos trivial]
    exact hrest
  · obtain ⟨d, t, hd, h49, h57⟩ := natDigits_head n hn
    rw [hd, List.cons_append]
    simp only [parseJNumber]
    rw [if_neg (by omega)]
    simp only [parseJNumMag]
    rw [if_neg (by omega), if_pos (by omega)]
    have hpack : d :: (t ++ s :: rest) = natDigits n ++ s :: rest := by
      rw [hd, List.cons_append]
    rw [hpack, consumeDigitsCnt_natDigits n 0 0,
      consumeDigitsCnt_stop _ _ _ (by intro c t2 heq; cases heq; exact hsd)]
    simpa using hrest

theorem hexRound : ∀ x < 16, hexVal (hexDigitChar x) = some x := by decide

theorem parseJStringAux_escape (fuel : Nat) (e u : Nat) (l : List Nat)
    (he : (e = 34 ∧ u = 34) ∨ (e = 92 ∧ u = 92) ∨ (e = 98 ∧ u = 8) ∨ (e = 116 ∧ u = 9) ∨
      (e = 110 ∧ u = 10) ∨ (e = 102 ∧ u = 12) ∨ (e = 114 ∧ u = 13)) :
    parseJStringAux (fuel + 1) (92 :: e :: l) = consRes u (parseJStringAux fuel l) := by
  rcases he with ⟨rfl, rfl⟩ | ⟨rfl, rfl⟩ | ⟨rfl, rfl⟩ | ⟨rfl, rfl⟩ | ⟨rfl, rfl⟩ |
    ⟨rfl, rfl⟩ | ⟨rfl, rfl⟩ <;>
    (simp only [parseJStringAux]; norm_num)

theorem parseJStringAux_u00 (fuel : Nat) (c : Nat) (hc : c < 32) (l : List Nat) :
    parseJStringAux (fuel + 1) (92 :: 117 :: 48 :: 48 ::
        hexDigitChar (c / 16) :: hexDigitChar (c % 16) :: l) =
      consRes c (parseJStringAux fuel l) := by
  have hh1 : hexVal (hexDigitChar (c / 16)) = some (c / 16) := hexRound _ (by omega)
  have hh2 : hexVal (hexDigitChar (c % 16)) = some (c % 16) := hexRound _ (by omega)
  have h48 : hexVal 48 = some 0 := rfl
  simp only [parseJStringAux]
  norm_num
  rw [hh1, hh2, h48]
  dsimp only
  norm_num
  rw [if_neg (by omega)]
  have hu : (c / 16 * 16 + c % 16 : Nat) = c := by omega
  rw [hu]

set_option maxHeartbeats 1600000 in
theorem parseJStringAux_quote (s : List Nat) : ∀ (fuel : Nat) (rest : List Nat),
    parseJStringAux ((s.map jsonEscapeChar).flatten.length + fuel + 1)
      ((s.map jsonEscapeChar).flatten ++ 34 :: rest) = some (s, rest) := by
  induction s with
  | nil =>
    intro fuel rest
    simp only [List.map_nil, List.flatten_nil, List.length_nil, List.nil_append,
      Nat.zero_add, parseJStringAux]
    norm_num
  | cons c t IH =>
    intro fuel rest
    rw [List.map_cons, List.flatten_cons, List.append_assoc]
    by_cases h34 : c = 34
    · subst h34
      have he : jsonEscapeChar 34 = [92, 34] := rfl
      rw [he]
      have hf : ([92, 34] ++ (t.map jsonEscapeChar).flatten).length + fuel + 1 =
          ((t.map jsonEscapeChar).flatten.length + (fuel + 1) + 1) + 1 := by
        simp only [List.length_append, List.length_cons, List.length_nil]
        omega
      rw [hf]
      simp only [List.cons_append, List.nil_append]
      rw [parseJStringAux_escape _ 34 34 _ (by tauto), IH (fuel + 1) rest]
      rfl
    · by_cases h92 : c = 92
      · subst h92
        have he : jsonEscapeChar 92 = [92, 92] := rfl
        rw [he]
        have hf : ([92, 92] ++ (t.map jsonEscapeChar).flatten).length + fuel + 1 =
            ((t.map jsonEscapeChar).flatten.length + (fuel + 1) + 1) + 1 := by
          simp only [List.length_append, List.length_cons, List.length_nil]
          omega
        rw [hf]
        simp only [List.cons_append, List.nil_append]
        rw [parseJStringAux_escape _ 92 92 _ (by tauto), IH (fuel + 1) rest]
        rfl
      · by_cases h8 : c = 8
        · subst h8
          have he : jsonEscapeChar 8 = [92, 98] := rfl
          rw [he]
          have hf : ([92, 98] ++ (t.map jsonEscapeChar).flatten).length + fuel + 1 =
              ((t.map jsonEscapeChar).flatten.length + (fuel + 1) + 1) + 1 := by
            simp only [List.length_append, List.length_cons, List.length_nil]
            omega
          rw [hf]
          simp only [List.cons_append, List.nil_append]
          rw [parseJStringAux_escape _ 98 8 _ (by tauto), IH (fuel + 1) rest]
          rfl
        · by_cases h9 : c = 9
          · subst h9
            have he : jsonEscapeChar 9 = [92, 116] := rfl
            rw [he]
            have hf : ([92, 116] ++ (t.map jsonEscapeChar).flatten).length + fuel + 1 =
                ((t.map jsonEscapeChar).flatten.length + (fuel + 1) + 1) + 1 := by
              simp only [List.length_append, List.length_cons, List.length_nil]
              omega
            rw [hf]
            simp only [List.cons_append, List.nil_append]
            rw [parseJStringAux_escape _ 116 9 _ (by tauto), IH (fuel + 1) rest]
            rfl
          · by_cases h10 : c = 10
            · subst h10
              have he : jsonEscapeChar 10 = [92, 110] := rfl
              rw [he]
              have hf : ([92, 110] ++ (t.map jsonEscapeChar).flatten).length + fuel + 1 =
                  ((t.map jsonEscapeChar).flatten.length + (fuel + 1) + 1) + 1 := by
                simp only [List.length_append, List.length_cons, List.length_nil]
                omega
              rw [hf]
              simp only [List.cons_append, List.nil_append]
              rw [parseJStringAux_escape _ 110 10 _ (by tauto), IH (fuel + 1) rest]
              rfl
            · by_cases h12 : c = 12
              · subst h12
                have he : jsonEscapeChar 12 = [92, 102] := rfl
                rw [he]
                have hf : ([92, 102] ++ (t.map jsonEscapeChar).flatten).length + fuel + 1 =
                    ((t.map jsonEscapeChar).flatten.length + (fuel + 1) + 1) + 1 := by
                  simp only [List.length_append, List.length_cons, List.length_nil]
                  omega
                rw [hf]
                simp only [List.cons_append, List.nil_append]
                rw [parseJStringAux_escape _ 102 12 _ (by tauto), IH (fuel + 1) rest]
                rfl
              · by_cases h13 : c = 13
                · subst h13
                  have he : jsonEscapeChar 13 = [92, 114] := rfl
                  rw [he]
                  have hf : ([92, 114] ++ (t.map jsonEscapeChar).flatten).length +
                      fuel + 1 =
                      ((t.map jsonEscapeChar).flatten.length + (fuel + 1) + 1) + 1 := by
                    simp only [List.length_append, List.length_cons, List.length_nil]
                    omega
                  rw [hf]
                  simp only [List.cons_append, List.nil_append]
                  rw [parseJStringAux_escape _ 114 13 _ (by tauto), IH (fuel + 1) rest]
                  rfl
                · by_cases hlt : c < 32
                  · have he : jsonEscapeChar c = [92, 117, 48, 48,
                        hexDigitChar (c / 16), hexDigitChar (c % 16)] := by
                      unfold jsonEscapeChar
                      rw [if_neg h34, if_neg h92, if_neg h8, if_neg h9, if_neg h10,
                        if_neg h12, if_neg h13, if_pos hlt]
                    rw [he]
                    have hf : ([92, 117, 48, 48, hexDigitChar (c / 16),
                        hexDigitChar (c % 16)] ++
                        (t.map jsonEscapeChar).flatten).length + fuel + 1 =
                        ((t.map jsonEscapeChar).flatten.length + (fuel + 5) + 1) + 1 := by
                      simp only [List.length_append, List.length_cons, List.length_nil]
                      omega
                    rw [hf]
                    simp only [List.cons_append, List.nil_append]
                    rw [parseJStringAux_u00 _ c hlt, IH (fuel + 5) rest]
                    rfl
                  · have he : jsonEscapeChar c = [c] := by
                      unfold jsonEscapeChar
                      rw [if_neg h34, if_neg h92, if_neg h8, if_neg h9, if_neg h10,
                        if_neg h12, if_neg h13, if_neg hlt]
                    rw [he]
                    have hf : ([c] ++ (t.map jsonEscapeChar).flatten).length + fuel + 1 =
                        ((t.map jsonEscapeChar).flatten.length + fuel + 1) + 1 := by
                      simp only [List.length_append, List.length_cons, List.length_nil]
                      omega
                    rw [hf]
                    simp only [List.cons_append, List.nil_append]
                    have hIH := IH fuel rest
                    generalize hF :
                      (t.map jsonEscapeChar).flatten.length + fuel + 1 = F at hIH ⊢
                    simp only [parseJStringAux]
                    rw [if_neg h34, if_neg h92, if_neg hlt, hIH]
                    rfl

theorem parseJString_quote (s : List Nat) (rest : List Nat) :
    parseJString ((s.map jsonEscapeChar).flatten ++ 34 :: rest) = some (s, rest) := by
  unfold parseJString
  have hf : ((s.map jsonEscapeChar).flatten ++ 34 :: rest).length + 1 =
      (s.map jsonEscapeChar).flatten.length + (rest.length + 1) + 1 := by
    simp only [List.length_append, List.length_cons]
  rw [hf]
  exact parseJStringAux_quote s (rest.length + 1) rest

theorem skipWs_cons (c : Nat) (l : List Nat) (h : isJsonWs c = false) :
    skipWs (c :: l) = c :: l := by
  simp [skipWs, List.dropWhile_cons, h]

theorem natDigits_cons (n : Nat) : ∃ d t, natDigits n = d :: t ∧ 48 ≤ d ∧ d ≤ 57 := by
  rcases Nat.eq_zero_or_pos n with rfl | hn
  · refine ⟨48, [], ?_, by omega, by omega⟩
    unfold natDigits
    rw [dif_pos (by omega)]
  · obtain ⟨d, t, hd, h49, h57⟩ := natDigits_head n hn
    exact ⟨d, t, hd, by omega, h57⟩

theorem skipWs_natDigits (n : Nat) (l : List Nat) :
    skipWs (natDigits n ++ l) = natDigits n ++ l := by
  obtain ⟨d, t, hd, h48, h57⟩ := natDigits_cons n
  rw [hd, List.cons_append, skipWs_cons]
  simp only [isJsonWs, decide_eq_false_iff_not]
  omega

theorem parseJValue_natDigits (fuel n s : Nat) (rest : List Nat)
    (hs : s = 44 ∨ s = 93 ∨ s = 125) :
    parseJValue (fuel + 1) (natDigits n ++ s :: rest) =
      some (JValue.num false n 0, s :: rest) := by
  obtain ⟨d, t, hd, h48, h57⟩ := natDigits_cons n
  rw [hd, List.cons_append]
  simp only [parseJValue]
  have hd110 : ¬ (d = 110) := by omega
  have hd34 : ¬ (d = 34) := by omega
  rw [if_neg hd110, if_neg (by omega), if_neg (by omega), if_neg hd34,
    if_neg (by omega), if_neg (by omega)]
  rw [← List.cons_append, ← hd]
  exact parseJNumber_natDigits n s rest hs

theorem parseJValue_str (fuel : Nat) (v tail : List Nat) :
    parseJValue (fuel + 1) (34 :: ((v.map jsonEscapeChar).flatten ++ 34 :: tail)) =
      some (JValue.str v, tail) := by
  simp only [parseJValue]
  norm_num
  rw [parseJString_quote]

theorem parseJMembers_str (fuel : Nat) (k v tail : List Nat) :
    parseJMembers (fuel + 2) (34 :: ((k.map jsonEscapeChar).flatten ++
        34 :: 58 :: 34 :: ((v.map jsonEscapeChar).flatten ++ 34 :: tail))) =
      (match skipWs tail with
       | 44 :: rest5 =>
         (match parseJMembers (fuel + 1) (skipWs rest5) with
          | some (ms, rest6) => some ((k, JValue.str v) :: ms, rest6)
          | none => none)
       | 125 :: rest5 => some ([(k, JValue.str v)], rest5)
       | _ => none) := by
  simp only [parseJMembers]
  rw [parseJString_quote]
  dsimp only
  rw [skipWs_cons 58 _ rfl]
  dsimp only
  rw [skipWs_cons 34 _ rfl]
  rw [parseJValue_str fuel v tail]

theorem parseJMembers_nat_comma (fuel : Nat) (k : List Nat) (n : Nat) (tail : List Nat) :
    parseJMembers (fuel + 2) (34 :: ((k.map jsonEscapeChar).flatten ++
        34 :: 58 :: (natDigits n ++ 44 :: tail))) =
      (match parseJMembers (fuel + 1) (skipWs tail) with
       | some (ms, rest6) => some ((k, JValue.num false n 0) :: ms, rest6)
       | none => none) := by
  simp only [parseJMembers]
  rw [parseJString_quote]
  dsimp only
  rw [skipWs_cons 58 _ rfl]
  dsimp only
  rw [skipWs_natDigits n (44 :: tail)]
  rw [parseJValue_natDigits fuel n 44 tail (by omega)]
  dsimp only
  rw [skipWs_cons 44 _ rfl]

theorem parseJMembers_nat_end (fuel : Nat) (k : List Nat) (n : Nat) (tail : List Nat) :
    parseJMembers (fuel + 2) (34 :: ((k.map jsonEscapeChar).flatten ++
        34 :: 58 :: (natDigits n ++ 125 :: tail))) =
      some ([(k, JValue.num false n 0)], tail) := by
  simp only [parseJMembers]
  rw [parseJString_quote]
  dsimp only
  rw [skipWs_cons 58 _ rfl]
  dsimp only
  rw [skipWs_natDigits n (125 :: tail)]
  rw [parseJValue_natDigits fuel n 125 tail (by omega)]
  dsimp only
  rw [skipWs_cons 125 _ rfl]

theorem utf8_roundtrip (cps : List Nat) (h : ∀ c ∈ cps, isScalarCode c = true) :
    utf8Decode (utf8Encode cps) = cps := by
  induction cps with
  | nil => rfl
  | cons c t IH =>
    have hc : isScalarCode c = true := h c (by simp)
    have hc2 : c < 1114112 ∧ ¬(55296 ≤ c ∧ c ≤ 57343) := by
      simp only [isScalarCode, decide_eq_true_eq] at hc
      omega
    have henc : utf8Encode (c :: t) = utf8EncodeChar c ++ utf8Encode t := by
      simp [utf8Encode]
    unfold utf8Decode
    rw [henc, utf8DecodeAux_encodeChar c hc2.1 hc2.2 (utf8Encode t)]
    have IH2 := IH fun b hb => h b (by simp [hb])
    unfold utf8Decode at IH2
    rw [IH2]

theorem parseJMembers_str_comma (fuel : Nat) (k v tail : List Nat) :
    parseJMembers (fuel + 2) (34 :: ((k.map jsonEscapeChar).flatten ++
        34 :: 58 :: 34 :: ((v.map jsonEscapeChar).flatten ++ 34 :: 44 :: tail))) =
      (match parseJMembers (fuel + 1) (skipWs tail) with
       | some (ms, rest6) => some ((k, JValue.str v) :: ms, rest6)
       | none => none) := by
  rw [parseJMembers_str fuel k v (44 :: tail), skipWs_cons 44 _ rfl]

theorem parseJValue_obj (fuel : Nat) (x : List Nat) :
    parseJValue (fuel + 1) (123 :: 34 :: x) =
      (match parseJMembers fuel (34 :: x) with
       | some (ms, rest2) => some (JValue.obj ms, rest2)
       | none => none) := by
  simp only [parseJValue]
  norm_num
  rw [skipWs_cons 34 _ rfl]

theorem parseJValue_arr (fuel : Nat) (x : List Nat) :
    parseJValue (fuel + 1) (91 :: 123 :: x) =
      (match parseJElems fuel (123 :: x) with
       | some (vs, rest2) => some (JValue.arr vs, rest2)
       | none => none) := by
  simp only [parseJValue]
  norm_num
  rw [skipWs_cons 123 _ rfl]

theorem parseJValue_task (fuel : Nat) (t : Task) (tail : List Nat) :
    parseJValue (fuel + 8) (jsonTaskCodes t ++ tail) = some (taskJValue t, tail) := by
  cases hoff : t.initialDaysOffset with
  | none =>
    simp only [jsonTaskCodes, taskJValue, jsonQuote, hoff, List.cons_append,
      List.append_assoc, List.singleton_append, List.nil_append, List.append_nil]
    rw [show fuel + 8 = fuel + 7 + 1 from rfl]
    rw [parseJValue_obj (fuel + 7)]
    rw [show fuel + 7 = fuel + 5 + 2 from rfl]
    rw [parseJMembers_str_comma (fuel + 5)]
    rw [skipWs_cons 34 _ rfl]
    rw [show fuel + 5 + 1 = fuel + 4 + 2 from rfl]
    rw [parseJMembers_str_comma (fuel + 4)]
    rw [skipWs_cons 34 _ rfl]
    rw [show fuel + 4 + 1 = fuel + 3 + 2 from rfl]
    rw [parseJMembers_nat_comma (fuel + 3)]
    rw [skipWs_cons 34 _ rfl]
    rw [show fuel + 3 + 1 = fuel + 2 + 2 from rfl]
    rw [parseJMembers_nat_comma (fuel + 2)]
    rw [skipWs_cons 34 _ rfl]
    rw [show fuel + 2 + 1 = fuel + 1 + 2 from rfl]
    rw [parseJMembers_nat_end (fuel + 1)]
  | some k =>
    simp only [jsonTaskCodes, taskJValue, jsonQuote, hoff, List.cons_append,
      List.append_assoc, List.singleton_append, List.nil_append, List.append_nil]
    rw [show fuel + 8 = fuel + 7 + 1 from rfl]
    rw [parseJValue_obj (fuel + 7)]
    rw [show fuel + 7 = fuel + 5 + 2 from rfl]
    rw [parseJMembers_str_comma (fuel + 5)]
    rw [skipWs_cons 34 _ rfl]
    rw [show fuel + 5 + 1 = fuel + 4 + 2 from rfl]
    rw [parseJMembers_str_comma (fuel + 4)]
    rw [skipWs_cons 34 _ rfl]
    rw [show fuel + 4 + 1 = fuel + 3 + 2 from rfl]
    rw [parseJMembers_nat_comma (fuel + 3)]
    rw [skipWs_cons 34 _ rfl]
    rw [show fuel + 3 + 1 = fuel + 2 + 2 from rfl]
    rw [parseJMembers_nat_comma (fuel + 2)]
    rw [skipWs_cons 34 _ rfl]
    rw [show fuel + 2 + 1 = fuel + 1 + 2 from rfl]
    rw [parseJMembers_nat_comma (fuel + 1)]
    rw [skipWs_cons 34 _ rfl]
    rw [show fuel + 1 + 1 = fuel + 2 from rfl]
    rw [parseJMembers_nat_end fuel]

theorem parseJElems_task_comma (fuel : Nat) (t : Task) (tail : List Nat) :
    parseJElems (fuel + 9) (jsonTaskCodes t ++ 44 :: tail) =
      (match parseJElems (fuel + 8) (skipWs tail) with
       | some (vs, rest3) => some (taskJValue t :: vs, rest3)
       | none => none) := by
  rw [show fuel + 9 = (fuel + 8) + 1 from rfl]
  simp only [parseJElems]
  rw [parseJValue_task fuel t (44 :: tail)]
  dsimp only
  rw [skipWs_cons 44 _ rfl]

theorem parseJElems_task_end (fuel : Nat) (t : Task) (tail : List Nat) :
    parseJElems (fuel + 9) (jsonTaskCodes t ++ 93 :: tail) = some ([taskJValue t], tail) := by
  rw [show fuel + 9 = (fuel + 8) + 1 from rfl]
  simp only [parseJElems]
  rw [parseJValue_task fuel t (93 :: tail)]
  dsimp only
  rw [skipWs_cons 93 _ rfl]

theorem jsonTaskCodes_head (t : Task) : ∃ z, jsonTaskCodes t = 123 :: z := by
  rw [jsonTaskCodes]
  simp only [List.append_assoc, List.singleton_append, List.cons_append]
  exact ⟨_, rfl⟩

theorem commaSep_tasks_head (y : Task) (l : List (List Nat)) :
    ∃ z, commaSep (jsonTaskCodes y :: l) = 123 :: z := by
  obtain ⟨w, hw⟩ := jsonTaskCodes_head y
  cases l with
  | nil =>
    have h1 : commaSep [jsonTaskCodes y] = jsonTaskCodes y := rfl
    rw [h1, hw]
    exact ⟨w, rfl⟩
  | cons b m =>
    have h1 : commaSep (jsonTaskCodes y :: b :: m) =
        jsonTaskCodes y ++ 44 :: commaSep (b :: m) := rfl
    rw [h1, hw, List.cons_append]
    exact ⟨_, rfl⟩

theorem skipWs_commaSep_tasks (ys : List Task) (tail : List Nat) (h : ys ≠ []) :
    skipWs (commaSep (ys.map jsonTaskCodes) ++ tail) =
      commaSep (ys.map jsonTaskCodes) ++ tail := by
  cases ys with
  | nil => exact absurd rfl h
  | cons y l =>
    obtain ⟨z, hz⟩ := commaSep_tasks_head y (l.map jsonTaskCodes)
    rw [List.map_cons, hz, List.cons_append, skipWs_cons 123 _ rfl]

theorem parseJElems_tasks (ts : List Task) : ∀ (fuel : Nat) (tail : List Nat), ts ≠ [] →
    parseJElems (ts.length + fuel + 8) (commaSep (ts.map jsonTaskCodes) ++ 93 :: tail) =
      some (ts.map taskJValue, tail) := by
  induction ts with
  | nil => intro fuel tail h; exact absurd rfl h
  | cons x ys IH =>
    intro fuel tail _
    cases ys with
    | nil =>
      rw [List.map_cons, List.map_nil]
      rw [show commaSep [jsonTaskCodes x] = jsonTaskCodes x from rfl]
      have hf : ([x] : List Task).length + fuel + 8 = fuel + 9 := by
        simp only [List.length_cons, List.length_nil]; omega
      rw [hf, parseJElems_task_end fuel x tail, List.map_cons, List.map_nil]
    | cons y rest =>
      have hcs : commaSep ((x :: y :: rest).map jsonTaskCodes) =
          jsonTaskCodes x ++ 44 :: commaSep ((y :: rest).map jsonTaskCodes) := by
        rw [List.map_cons, List.map_cons]
        rfl
      rw [hcs, List.append_assoc, List.cons_append]
      have hf : (x :: y :: rest).length + fuel + 8 =
          ((y :: rest).length + fuel) + 9 := by
        simp only [List.length_cons]; omega
      rw [hf, parseJElems_task_comma ((y :: rest).length + fuel) x]
      rw [skipWs_commaSep_tasks (y :: rest) (93 :: tail) (by simp)]
      rw [IH fuel tail (by simp)]
      dsimp only
      simp only [List.map_cons]

theorem jsonTaskCodes_length (t : Task) : 9 ≤ (jsonTaskCodes t).length := by
  cases hoff : t.initialDaysOffset <;>
    simp only [jsonTaskCodes, jsonQuote, hoff, List.length_append, List.length_cons,
      List.length_nil] <;>
    omega

theorem commaSep_tasks_length (ts : List Task) (h : ts ≠ []) :
    ts.length + 6 ≤ (commaSep (ts.map jsonTaskCodes)).length := by
  induction ts with
  | nil => exact absurd rfl h
  | cons x ys IH =>
    cases ys with
    | nil =>
      simp only [List.map_cons, List.map_nil, commaSep, List.length_cons, List.length_nil]
      have := jsonTaskCodes_length x
      omega
    | cons y rest =>
      simp only [List.map_cons, commaSep, List.length_append, List.length_cons]
      have h1 := jsonTaskCodes_length x
      have h2 := IH (by simp)
      rw [List.map_cons] at h2
      simp only [List.length_cons] at h2
      omega

theorem jsonParse_tasks (ts : List Task) (h : ts ≠ []) :
    jsonParse (jsonTasksCodes ts) = some (JValue.arr (ts.map taskJValue)) := by
  obtain ⟨y, l, rfl⟩ : ∃ y l, ts = y :: l := by
    cases ts with
    | nil => exact absurd rfl h
    | cons y l => exact ⟨y, l, rfl⟩
  obtain ⟨z, hz⟩ := commaSep_tasks_head y (l.map jsonTaskCodes)
  unfold jsonParse jsonTasksCodes
  rw [List.map_cons, hz]
  simp only [List.cons_append]
  rw [skipWs_cons 91 _ rfl]
  have hlen : (91 :: 123 :: (z ++ [93])).length + 1 = (z.length + 3) + 1 := by
    simp only [List.length_cons, List.length_append, List.length_nil]
  rw [hlen, parseJValue_arr (z.length + 3)]
  rw [← List.cons_append, ← hz, ← List.map_cons]
  have hb := commaSep_tasks_length (y :: l) (by simp)
  obtain ⟨fuel, hfuel⟩ : ∃ f, z.length + 3 = (y :: l).length + f + 8 := by
    have hzlen : (commaSep ((y :: l).map jsonTaskCodes)).length = z.length + 1 := by
      rw [List.map_cons, hz]
      simp only [List.length_cons]
    exact ⟨z.length + 3 - ((y :: l).length + 8), by omega⟩
  rw [hfuel, parseJElems_tasks (y :: l) fuel [] (by simp)]
  dsimp only
  simp [skipWs]

theorem scalar_append {a b : List Nat}
    (ha : ∀ c ∈ a, isScalarCode c = true) (hb : ∀ c ∈ b, isScalarCode c = true) :
    ∀ c ∈ a ++ b, isScalarCode c = true := by
  intro c hc
  rcases List.mem_append.mp hc with h | h
  · exact ha c h
  · exact hb c h

theorem singleton_scalar (n : Nat) (h : isScalarCode n = true) :
    ∀ c ∈ [n], isScalarCode c = true := by
  intro c hc
  rcases List.mem_singleton.mp hc with rfl
  exact h

theorem codesOf_scalar (s : String) : ∀ c ∈ codesOf s, isScalarCode c = true := by
  intro c hc
  simp only [codesOf, List.mem_map] at hc
  obtain ⟨ch, _, rfl⟩ := hc
  have h : ch.val.toNat < 55296 ∨ (57343 < ch.val.toNat ∧ ch.val.toNat < 1114112) := ch.valid
  simp only [isScalarCode, Char.toNat, decide_eq_true_eq]
  omega

theorem jsonEscapeChar_scalar (c : Nat) (hc : isScalarCode c = true) :
    ∀ d ∈ jsonEscapeChar c, isScalarCode d = true := by
  intro d hd
  have hx : ∀ m : Nat, hexDigitChar m ≤ 87 + m := by
    intro m; unfold hexDigitChar; split <;> omega
  have hx1 := hx (c / 16)
  have hx2 := hx (c % 16)
  simp only [isScalarCode, decide_eq_true_eq] at hc ⊢
  unfold jsonEscapeChar at hd
  split_ifs at hd with h1 h2 h3 h4 h5 h6 h7 h8 <;>
    simp only [List.mem_cons, List.not_mem_nil, or_false] at hd <;>
    omega

theorem natDigits_scalar (n : Nat) : ∀ d ∈ natDigits n, isScalarCode d = true := by
  intro d hd
  have := natDigits_bounds n d hd
  simp only [isScalarCode, decide_eq_true_eq]
  omega

theorem jsonQuote_scalar (s : List Nat) (hs : ∀ c ∈ s, isScalarCode c = true) :
    ∀ d ∈ jsonQuote s, isScalarCode d = true := by
  intro d hd
  unfold jsonQuote at hd
  rcases List.mem_cons.mp hd with rfl | hd2
  · rfl
  · rcases List.mem_append.mp hd2 with hd3 | hd3
    · obtain ⟨l, hl, hdl⟩ := List.mem_flatten.mp hd3
      obtain ⟨c, hcs, rfl⟩ := List.mem_map.mp hl
      exact jsonEscapeChar_scalar c (hs c hcs) d hdl
    · rcases List.mem_singleton.mp hd3 with rfl
      rfl

theorem jsonTaskCodes_scalar (t : Task) : ∀ c ∈ jsonTaskCodes t, isScalarCode c = true := by
  have q : ∀ s : String, ∀ d ∈ jsonQuote (codesOf s), isScalarCode d = true :=
    fun s => jsonQuote_scalar (codesOf s) (codesOf_scalar s)
  intro c hc
  cases hoff : t.initialDaysOffset with
  | none =>
    rw [jsonTaskCodes, hoff] at hc
    dsimp only at hc
    simp only [List.mem_append, List.mem_singleton, List.not_mem_nil,
      or_false, false_or, or_assoc] at hc
    repeat
      first
        | exact q _ c hc
        | exact natDigits_scalar _ c hc
        | (subst hc; rfl)
        | (rcases hc with hc | hc)
  | some k =>
    rw [jsonTaskCodes, hoff] at hc
    dsimp only at hc
    simp only [List.mem_append, List.mem_singleton, List.not_mem_nil,
      or_false, false_or, or_assoc] at hc
    repeat
      first
        | exact q _ c hc
        | exact natDigits_scalar _ c hc
        | (subst hc; rfl)
        | (rcases hc with hc | hc)

theorem commaSep_scalar (L : List (List Nat))
    (hL : ∀ x ∈ L, ∀ c ∈ x, isScalarCode c = true) :
    ∀ c ∈ commaSep L, isScalarCode c = true := by
  induction L with
  | nil => intro c hc; simp [commaSep] at hc
  | cons x ys IH =>
    cases ys with
    | nil =>
      intro c hc
      simp only [commaSep] at hc
      exact hL x (by simp) c hc
    | cons y rest =>
      intro c hc
      simp only [commaSep, List.mem_append, List.mem_cons] at hc
      rcases hc with hc | hc | hc
      · exact hL x (by simp) c hc
      · subst hc; rfl
      · exact IH (fun z hz c2 hc2 => hL z (List.mem_cons_of_mem x hz) c2 hc2) c hc

theorem jsonTasksCodes_scalar (ts : List Task) :
    ∀ c ∈ jsonTasksCodes ts, isScalarCode c = true := by
  intro c hc
  rw [jsonTasksCodes] at hc
  rcases List.mem_cons.mp hc with rfl | hc2
  · rfl
  · rcases List.mem_append.mp hc2 with hc3 | hc3
    · refine commaSep_scalar _ ?_ c hc3
      intro x hx
      obtain ⟨t, _, rfl⟩ := List.mem_map.mp hx
      exact jsonTaskCodes_scalar t
    · rcases List.mem_singleton.mp hc3 with rfl
      rfl

theorem scalar_lt (c : Nat) (hc : isScalarCode c = true) : c < 1114112 := by
  simp only [isScalarCode, decide_eq_true_eq] at hc
  omega

theorem utf8Encode_bytes_lt (cps : List Nat) (h : ∀ c ∈ cps, isScalarCode c = true) :
    ∀ b ∈ utf8Encode cps, b < 256 := by
  intro b hb
  simp only [utf8Encode, List.mem_flatten, List.mem_map] at hb
  obtain ⟨l, ⟨c, hc, rfl⟩, hbl⟩ := hb
  exact utf8EncodeChar_lt c (scalar_lt c (h c hc)) b hbl

theorem decodeUnicode_roundtrip (cps : List Nat) (h : ∀ c ∈ cps, isScalarCode c = true) :
    decodeUnicodeFromBase64 (encodeUnicodeToBase64 cps) = some cps := by
  unfold decodeUnicodeFromBase64 encodeUnicodeToBase64
  rw [b64_roundtrip (utf8Encode cps) (utf8Encode_bytes_lt cps h)]
  dsimp only
  rw [utf8_roundtrip cps h]

theorem jnumToNat_nat (n : Nat) : jnumToNat false n 0 = some n := by
  simp [jnumToNat]

theorem decodeCodes_codesOf (s : String) : decodeCodes (codesOf s) = some s := by
  unfold decodeCodes
  rw [if_pos (List.all_eq_true.mpr (codesOf_scalar s))]
  have hmap : ∀ l : List Char, (l.map fun c => c.toNat).map Char.ofNat = l := by
    intro l
    induction l with
    | nil => rfl
    | cons c t IH => simp only [List.map_cons, Char.ofNat_toNat, IH]
  simp only [codesOf]
  rw [hmap s.data]

theorem jsonToTask_taskJValue (t : Task) : jsonToTask (taskJValue t) = some t := by
  obtain ⟨id, name, iv, lc, ca, off⟩ := t
  have kid : codesOf "id" = [105, 100] := rfl
  have kname : codesOf "name" = [110, 97, 109, 101] := rfl
  have kiv : codesOf "intervalDays" =
      [105, 110, 116, 101, 114, 118, 97, 108, 68, 97, 121, 115] := rfl
  have klc : codesOf "lastCompleted" =
      [108, 97, 115, 116, 67, 111, 109, 112, 108, 101, 116, 101, 100] := rfl
  have kca : codesOf "createdAt" = [99, 114, 101, 97, 116, 101, 100, 65, 116] := rfl
  have koff : codesOf "initialDaysOffset" =
      [105, 110, 105, 116, 105, 97, 108, 68, 97, 121, 115, 79, 102, 102, 115, 101, 116] := rfl
  cases off with
  | none =>
    simp [taskJValue, jsonToTask, jstrField, jnatField, jlookup, kid, kname, kiv, klc,
      kca, koff, decodeCodes_codesOf, jnumToNat_nat]
  | some k =>
    simp [taskJValue, jsonToTask, jstrField, jnatField, jlookup, kid, kname, kiv, klc,
      kca, koff, decodeCodes_codesOf, jnumToNat_nat]

theorem mergeImportedTasks_nil (ts : List Task) (h : ts ≠ []) :
    mergeImportedTasks [] ts = (true, ts) := by
  simp only [mergeImportedTasks, List.map_nil]
  have hfilter : ts.filter (fun t => !(([] : List String).contains t.id)) = ts :=
    List.filter_eq_self.mpr (fun a _ => rfl)
  rw [hfilter, if_pos (List.length_pos.mpr h), List.nil_append]

/-- C4: serialising a non-empty task list through `generateMagicLink`'s
pipeline (`JSON.stringify`, UTF-8 encoding, `btoa`, base64url replacements
with padding stripped) and feeding the encoded query-parameter value to
`importTasksFromLink` on an empty store reconstructs the identical task
list — same ids, names, `intervalDays`, `lastCompleted`, `createdAt` and
`initialDaysOffset` — and returns `true`; for an empty task list
`generateMagicLink` yields the empty string, and importing that empty
result returns `false` and leaves any store unchanged. -/
theorem magicLink_roundtrip (ts store : List Task) (currentUrl : List Nat) :
    (ts ≠ [] → importTasksFromLink [] (magicLinkPayload ts) = (true, ts)) ∧
    generateMagicLink currentUrl [] = [] ∧
    importTasksFromLink store [] = (false, store) := by
  refine ⟨?_, rfl, ?_⟩
  · intro hne
    unfold importTasksFromLink magicLinkPayload
    rw [decodeUnicode_roundtrip (jsonTasksCodes ts) (jsonTasksCodes_scalar ts)]
    dsimp only
    rw [jsonParse_tasks ts hne]
    dsimp only
    have hlen0 : ¬ ((ts.map taskJValue).length = 0) := by
      simp only [List.length_map, List.length_eq_zero]
      exact hne
    rw [if_neg hlen0]
    rw [mapM_map_some ts taskJValue jsonToTask (fun a _ => jsonToTask_taskJValue a)]
    dsimp only
    exact mergeImportedTasks_nil ts hne
  · have h1 : decodeUnicodeFromBase64 [] = some [] := rfl
    unfold importTasksFromLink
    rw [h1]
    dsimp only
    have h2 : jsonParse [] = none := rfl
    rw [h2]

theorem magicLink_roundtrip_witness :
    importTasksFromLink []
        (magicLinkPayload [⟨"a", "water", 3, 86400000, 86400000, some 1⟩]) =
      (true, [⟨"a", "water", 3, 86400000, 86400000, some 1⟩]) :=
  (magicLink_roundtrip [⟨"a", "water", 3, 86400000, 86400000, some 1⟩] [] []).1
    (List.cons_ne_nil _ _)

end OneClickRoutine
